import Mathlib

/-! Verification of the `param` package (HTTP request-parameter binder).

This file gives a shallow embedding of the `param` package: a tag-driven
binder that populates a destination struct from an HTTP request's path,
query and form parameters (`Parser.Parse` and its helpers), together with
models of the Go standard-library functions it calls (`strconv.ParseBool`,
`strconv.ParseInt`, `strconv.ParseUint`, `strconv.ParseFloat`,
`strings.Split`, `reflect.StructTag.Get`, `url.Values`, form parsing).

Go struct types are embedded as the inductive `Ty` (with its field lists
`Fields`), runtime values as `Value`/`Values`.  Stateful Go code that
mutates the destination through `reflect.Value` is embedded by explicit
state passing: a function that in Go mutates `dest` and returns `error`
here returns `Option GoError × Value` (the error, if any, and the final
state of the value it may have mutated).  `reflect.Value` aliases captured
by `zeroPath` in the field `destValue` are embedded as the index path
itself; the binding phase re-walks that path (faithful to the alias
semantics whenever no discovered index path strictly extends another, the
condition under which no intermediate pointer is re-pointed between the
capture and the write).
-/

namespace Param

/-- A Go struct tag, modelling `reflect.StructTag` as the key→value
association it denotes (`reflect.StructTag.Get` semantics). -/
abbrev StructTag := List (String × String)

/-- Model of `reflect.StructTag.Get`: value of the first entry with the
given key, `""` when the key is absent. -/
def tagGet (t : StructTag) (key : String) : String :=
  match t.find? (fun kv => kv.1 == key) with
  | some kv => kv.2
  | none => ""

/-- Model of Go's exported-identifier rule used by
`reflect.StructField.IsExported`: the name starts with an upper-case
letter. -/
def isExported (name : String) : Bool :=
  match name.toList with
  | [] => false
  | c :: _ => c.isUpper

/-- Model of `strings.Split(s, sep)` for a single-character separator,
at the level of character lists: split on every occurrence of `c`. -/
def splitOnChar (c : Char) : List Char → List (List Char)
  | [] => [[]]
  | x :: xs =>
    if x = c then [] :: splitOnChar c xs
    else
      match splitOnChar c xs with
      | [] => [[x]]
      | h :: t => (x :: h) :: t

/-- The two sentinel errors of `strconv`: `ErrRange` and `ErrSyntax`. -/
inductive BaseErr where
  | errRange
  | errSyntax
deriving DecidableEq, Repr

/-- Model of the Go `error` values this package produces:
`*strconv.NumError` (func, input, and the wrapped sentinel),
plain `fmt.Errorf` messages, `fmt.Errorf("...: %w", err)` wrappings,
and a marker for situations where the Go code would panic (never reached
on the inputs `Parse` itself produces). -/
inductive GoError where
  | numError (fn : String) (num : String) (err : BaseErr)
  | msg (s : String)
  | wrap (m : String) (inner : GoError)
  | panicked (s : String)
deriving DecidableEq, Repr

/-- Model of `errors.Is(e, target)` for the two `strconv` sentinels:
`*strconv.NumError` unwraps to its `Err` field, `%w` wrapping unwraps to
the wrapped error. -/
def errorsIs (e : GoError) (target : BaseErr) : Bool :=
  match e with
  | .numError _ _ b => b == target
  | .msg _ => false
  | .wrap _ inner => errorsIs inner target
  | .panicked _ => false

/-- The `Error()` string of a modelled error (`strconv.NumError.Error`
quotes the input; escaping inside the quotes is not modelled). -/
def errMessage (e : GoError) : String :=
  match e with
  | .numError fn num b =>
    "strconv." ++ fn ++ ": parsing \"" ++ num ++ "\": " ++
      (match b with
       | .errRange => "value out of range"
       | .errSyntax => "invalid syntax")
  | .msg s => s
  | .wrap m inner => m ++ ": " ++ errMessage inner
  | .panicked s => "panic: " ++ s

/-- `pat` is a prefix of `s` (character lists). -/
def charListHasPre : List Char → List Char → Bool
  | [], _ => true
  | _ :: _, [] => false
  | a :: as, b :: bs => a == b && charListHasPre as bs

def charListContains : List Char → List Char → Bool
  | s, pat =>
    if charListHasPre pat s then true
    else
      match s with
      | [] => false
      | _ :: tl => charListContains tl pat

/-- `true` when `pat` occurs as a substring of `s` (used to state that an
error message mentions a name). -/
def containsSubstr (s pat : String) : Bool :=
  charListContains s.toList pat.toList

/-! ## Models of the `strconv` parsing functions (base 10) -/

/-- Model of `strconv.ParseBool`. -/
def goParseBool (s : String) : Except GoError Bool :=
  if s = "1" ∨ s = "t" ∨ s = "T" ∨ s = "true" ∨ s = "TRUE" ∨ s = "True" then
    pure true
  else if s = "0" ∨ s = "f" ∨ s = "F" ∨ s = "false" ∨ s = "FALSE" ∨ s = "False" then
    pure false
  else
    throw (.numError "ParseBool" s .errSyntax)

/-- Decimal digits of a character list, `none` when empty or containing a
non-digit. -/
def decDigits : List Char → Option Nat
  | [] => none
  | cs => go cs 0
where
  go : List Char → Nat → Option Nat
    | [], acc => some acc
    | c :: cs, acc =>
      if c.isDigit then go cs (acc * 10 + (c.toNat - '0'.toNat))
      else none

/-- Model of `strconv.ParseUint(s, 10, bits)`: digits only (no sign),
syntax error otherwise; range error when the value exceeds `2^bits - 1`. -/
def goParseUint (s : String) (bits : Nat) : Except GoError Nat :=
  match decDigits s.toList with
  | none => throw (.numError "ParseUint" s .errSyntax)
  | some v =>
    if v ≤ 2 ^ bits - 1 then pure v
    else throw (.numError "ParseUint" s .errRange)

/-- Model of `strconv.ParseInt(s, 10, bits)`: an optional sign followed by
digits; range error when the value falls outside
`[-2^(bits-1), 2^(bits-1) - 1]`. -/
def goParseInt (s : String) (bits : Nat) : Except GoError Int :=
  let (neg, digits) :=
    match s.toList with
    | '-' :: rest => (true, rest)
    | '+' :: rest => (false, rest)
    | l => (false, l)
  match decDigits digits with
  | none => throw (.numError "ParseInt" s .errSyntax)
  | some v =>
    if neg then
      if v ≤ 2 ^ (bits - 1) then pure (-(v : Int))
      else throw (.numError "ParseInt" s .errRange)
    else
      if v ≤ 2 ^ (bits - 1) - 1 then pure (v : Int)
      else throw (.numError "ParseInt" s .errRange)

/-! ## Model of `strconv.ParseFloat`

IEEE-754 binary floating point is embedded exactly: a parsed float is
`±mant·2^exp` (or `±∞` after an overflow).  `goParseFloat` parses the
decimal subset of the `ParseFloat` grammar (optional sign, integer part,
optional fraction, optional decimal exponent; `inf`/`nan`/hex floats and
digit-group underscores are not needed by this package's specification)
and rounds the exact decimal value to the nearest representable binary
float of the requested width, ties to even, exactly as `ParseFloat` does;
overflow beyond the largest finite value yields `ErrRange`, and underflow
to zero of a nonzero decimal also yields `ErrRange`. -/

deriving instance DecidableEq for Except

/-- An exactly-represented parse result of `ParseFloat`: a finite binary
float `±mant·2^exp`, or infinity (the overflow return value). -/
inductive FloatV where
  | finite (neg : Bool) (mant : Nat) (exp : Int)
  | inf (neg : Bool)
deriving DecidableEq, Repr

/-- `2^e ≤ p/q`, for positive naturals `p`, `q` and an arbitrary integer
exponent. -/
def pow2Le (e : Int) (p q : Nat) : Bool :=
  if 0 ≤ e then q * 2 ^ e.toNat ≤ p
  else q ≤ p * 2 ^ (-e).toNat

/-- Fuel-based floor of `log2 n` (`0` for `n ≤ 1`); the fuel is
consumed once per halving, so `fuel = n` always suffices. -/
def log2Floor : Nat → Nat → Nat
  | 0, _ => 0
  | fuel + 1, n => if n ≤ 1 then 0 else log2Floor fuel (n / 2) + 1

def natLog2 (n : Nat) : Nat := log2Floor n n

/-- Floor of `log2 (p/q)` for positive `p`, `q`. -/
def flog2 (p q : Nat) : Int :=
  let e0 : Int := (natLog2 p : Int) - (natLog2 q : Int)
  if pow2Le (e0 + 1) p q then e0 + 1
  else if pow2Le e0 p q then e0
  else e0 - 1

/-- Round `n / d` to the nearest integer, ties to even (`d > 0`). -/
def roundNearestEven (n d : Nat) : Nat :=
  let q := n / d
  let r := n % d
  if 2 * r < d then q
  else if d < 2 * r then q + 1
  else if q % 2 = 0 then q else q + 1

/-- Round the positive rational `num/den` to the nearest binary float with
`prec` bits of precision, normal exponent range `[emin, emax]`, ties to
even.  Returns the mantissa and the power-of-two exponent of the result,
i.e. the value is `mant·2^exp`; mantissa `0` means underflow to zero. -/
def roundToBinary (num den : Nat) (prec : Nat) (emin : Int) : Nat × Int :=
  let e := flog2 num den
  let eUsed := if e < emin then emin else e
  let shift : Int := (prec : Int) - 1 - eUsed
  let mant :=
    if 0 ≤ shift then roundNearestEven (num * 2 ^ shift.toNat) den
    else roundNearestEven num (den * 2 ^ (-shift).toNat)
  (mant, eUsed - ((prec : Int) - 1))

/-- `a·2^x ≤ b·2^y` for naturals `a`, `b` and integer exponents. -/
def scaledLe (a : Nat) (x : Int) (b : Nat) (y : Int) : Bool :=
  if x ≤ y then a ≤ b * 2 ^ (y - x).toNat
  else a * 2 ^ (x - y).toNat ≤ b

/-- The decimal grammar accepted by the model of `ParseFloat`:
`[+-] digits [. digits] [(e|E) [+-] digits]`, with at least one digit in
the mantissa.  Returns the sign and the exact value as `m·10^d`. -/
def parseDecimal (s : String) : Option (Bool × Nat × Int) :=
  match s.toList with
  | [] => none
  | l =>
    let (neg, l) :=
      match l with
      | '-' :: rest => (true, rest)
      | '+' :: rest => (false, rest)
      | l => (false, l)
    let intPart := l.takeWhile (·.isDigit)
    let l := l.drop intPart.length
    let (fracPart, l) : List Char × List Char :=
      match l with
      | '.' :: rest => (rest.takeWhile (·.isDigit), rest.drop ((rest.takeWhile (·.isDigit)).length))
      | l => ([], l)
    if intPart.length + fracPart.length = 0 then none
    else
      let mantDigits := intPart ++ fracPart
      match decDigits0 mantDigits with
      | none => none
      | some m =>
        match l with
        | [] => some (neg, m, -(fracPart.length : Int))
        | e :: rest =>
          if e = 'e' ∨ e = 'E' then
            let (eneg, ed) :=
              match rest with
              | '-' :: r => (true, r)
              | '+' :: r => (false, r)
              | r => (false, r)
            match decDigits ed with
            | none => none
            | some ev =>
              some (neg, m, (if eneg then -(ev : Int) else (ev : Int)) - (fracPart.length : Int))
          else none
where
  /-- digits of a possibly-empty digit list -/
  decDigits0 (l : List Char) : Option Nat :=
    match l with
    | [] => some 0
    | _ => decDigits l

/-- Precision, normal exponent minimum and maximum of the IEEE format with
the given bit width (32 or 64). -/
def floatParams (bits : Nat) : Nat × Int × Int :=
  if bits = 32 then (24, -126, 127) else (53, -1022, 1023)

/-- Model of `strconv.ParseFloat(s, bits)` on its decimal grammar. -/
def goParseFloat (s : String) (bits : Nat) : Except GoError FloatV :=
  match parseDecimal s with
  | none => throw (.numError "ParseFloat" s .errSyntax)
  | some (neg, m, d) =>
    if m = 0 then pure (.finite neg 0 0)
    else
      let (prec, emin, emax) := floatParams bits
      let (num, den) :=
        if 0 ≤ d then (m * 10 ^ d.toNat, 1)
        else (m, 10 ^ (-d).toNat)
      let (mant, exp) := roundToBinary num den prec emin
      -- overflow: the rounded value exceeds the largest finite value
      if scaledLe mant exp (2 ^ prec - 1) (emax - ((prec : Int) - 1)) then
        if mant = 0 then throw (.numError "ParseFloat" s .errRange)
        else pure (.finite neg mant exp)
      else throw (.numError "ParseFloat" s .errRange)

/-! ## Go types and values

`Ty` embeds the Go types the binder can encounter through `reflect`:
the primitive kinds it switches on, pointers, slices, structs (with their
ordered field lists, each field carrying its name, `Anonymous` flag and
struct tag), named types whose pointer implements
`encoding.TextUnmarshaler` (embedded opaquely: the modelled
`UnmarshalText` records the exact text it received and never fails, which
makes delegation observable), and a residual constructor for kinds with no
coercion strategy (maps, channels, ...).  Go `int`/`uint` are embedded as
the 64-bit instances `Ty.int 64`/`Ty.uint 64` (`Type.Bits()` on a 64-bit
platform). -/

mutual

inductive Ty where
  | bool
  | int (bits : Nat)
  | uint (bits : Nat)
  | float (bits : Nat)
  | str
  | ptr (elem : Ty)
  | slice (elem : Ty)
  | strct (name : String) (fields : Fields)
  | unmarshaler (name : String)
  | unsupported (name : String)

/-- The ordered field list of a struct type: `cons name anon tag ty tl`
is a field with the given name, `reflect.StructField.Anonymous` flag,
struct tag and type. -/
inductive Fields where
  | nil
  | cons (name : String) (anon : Bool) (tag : StructTag) (ty : Ty) (tl : Fields)

end

mutual

/-- A Go runtime value of a `Ty`: pointers are `vptrNil` or `vptr v`,
slices are the nil slice or a sequence, structs carry their field values in
order, and a `TextUnmarshaler` value records the text it last received
(`none` = zero value, never told any text). -/
inductive Value where
  | vbool (b : Bool)
  | vint (n : Int)
  | vuint (n : Nat)
  | vfloat (x : FloatV)
  | vstr (s : String)
  | vptrNil
  | vptr (v : Value)
  | vsliceNil
  | vslice (vs : Values)
  | vstrct (vs : Values)
  | vunm (received : Option String)
  | vunsupported

inductive Values where
  | nil
  | cons (v : Value) (tl : Values)

end

deriving instance DecidableEq for Ty
deriving instance DecidableEq for Value

/-- Number of fields (`reflect.Type.NumField`). -/
def Fields.length : Fields → Nat
  | .nil => 0
  | .cons _ _ _ _ tl => tl.length + 1

/-- Field at index `i` (`reflect.Type.Field(i)`): name, `Anonymous` flag,
tag and type. -/
def Fields.get : Fields → Nat → Option (String × Bool × StructTag × Ty)
  | .nil, _ => none
  | .cons name anon tag ty _, 0 => some (name, anon, tag, ty)
  | .cons _ _ _ _ tl, n + 1 => tl.get n

def Values.length : Values → Nat
  | .nil => 0
  | .cons _ tl => tl.length + 1

/-- Value at index `i` (`reflect.Value.Field(i)`). -/
def Values.get : Values → Nat → Option Value
  | .nil, _ => none
  | .cons v _, 0 => some v
  | .cons _ tl, n + 1 => tl.get n

/-- Replace the value at index `i` (a `reflect.Value.Set` on field `i`). -/
def Values.set : Values → Nat → Value → Values
  | .nil, _, _ => .nil
  | .cons _ tl, 0, w => .cons w tl
  | .cons v tl, n + 1, w => .cons v (tl.set n w)

mutual

/-- `reflect.Zero(t)`: the zero value of a type. -/
def zeroValue : Ty → Value
  | .bool => .vbool false
  | .int _ => .vint 0
  | .uint _ => .vuint 0
  | .float _ => .vfloat (.finite false 0 0)
  | .str => .vstr ""
  | .ptr _ => .vptrNil
  | .slice _ => .vsliceNil
  | .strct _ flds => .vstrct (zeroFields flds)
  | .unmarshaler _ => .vunm none
  | .unsupported _ => .vunsupported

def zeroFields : Fields → Values
  | .nil => .nil
  | .cons _ _ _ ty tl => .cons (zeroValue ty) (zeroFields tl)

end

/-- `reflect.Type.Name()`: the name of a named type, `""` for unnamed
type literals such as pointers and slices. -/
def tyName : Ty → String
  | .bool => "bool"
  | .int bits => "int" ++ Nat.repr bits
  | .uint bits => "uint" ++ Nat.repr bits
  | .float bits => "float" ++ Nat.repr bits
  | .str => "string"
  | .ptr _ => ""
  | .slice _ => ""
  | .strct name _ => name
  | .unmarshaler name => name
  | .unsupported name => name

mutual

/-- Structural equality test on values. -/
def beqValue : Value → Value → Bool
  | .vbool a, .vbool b => a == b
  | .vint a, .vint b => a == b
  | .vuint a, .vuint b => a == b
  | .vfloat a, .vfloat b => a == b
  | .vstr a, .vstr b => a == b
  | .vptrNil, .vptrNil => true
  | .vptr a, .vptr b => beqValue a b
  | .vsliceNil, .vsliceNil => true
  | .vslice a, .vslice b => beqValues a b
  | .vstrct a, .vstrct b => beqValues a b
  | .vunm a, .vunm b => a == b
  | .vunsupported, .vunsupported => true
  | _, _ => false

def beqValues : Values → Values → Bool
  | .nil, .nil => true
  | .cons a as, .cons b bs => beqValue a b && beqValues as bs
  | _, _ => false

end

/-! ## The HTTP request at the package's interface boundary

`http.Request` is embedded at the boundary the binder reads it through:
the method, the parsed URL query multi-map (in request order), the outcome
of `r.ParseMultipartForm` / `r.ParseForm` on the body, and the post-parse
form data `r.PostForm`. -/

/-- Outcome of `r.ParseMultipartForm(maxMemory)`: success, the sentinel
`http.ErrNotMultipart` (body is not multipart), or another failure. -/
inductive MultipartOutcome where
  | parsedOk
  | notMultipart
  | failed (m : String)
deriving DecidableEq, Repr

structure Request where
  method : String
  query : List (String × String)
  multipartOutcome : MultipartOutcome
  /-- failure message of `r.ParseForm`, `none` when it succeeds -/
  formErr : Option String
  /-- `r.PostForm` after a successful body parse, in request order -/
  postForm : List (String × String)

/-- `url.Values` lookup `query[name]`: all values for the name, in request
order (`[]` when the key is absent). -/
def queryGet (q : List (String × String)) (name : String) : List String :=
  (q.filter (fun kv => kv.1 == name)).map (fun kv => kv.2)

/-- `r.PostFormValue(key)`: first value for the key, `""` when absent. -/
def Request.postFormValue (r : Request) (key : String) : String :=
  match r.postForm.find? (fun kv => kv.1 == key) with
  | some kv => kv.2
  | none => ""

/-- `PathParamFunc` is a function that returns value of specified http
path parameter. -/
abbrev PathParamFunc := Request → String → String

/-- `FormParamFunc` is a function that returns value of specified form
parameter. -/
abbrev FormParamFunc := Request → String → String

def DefaultFormParamFunc : FormParamFunc := fun r key => r.postFormValue key

/-- `TagResolver` decides from a field tag what parameter should be
searched; the second component says whether to search at all. -/
abbrev TagResolver := StructTag → String × Bool

/-- `TagNameResolver` returns the value of tag with `tagName`, and whether
the tag exists at all. -/
def TagNameResolver (tagName : String) : TagResolver := fun fieldTag =>
  let tagValue := tagGet fieldTag tagName
  if tagValue = "" then ("", false) else (tagValue, true)

/-- `Parser` can parse query, path and form parameters from a request into
a struct.  `PathParamFunc` is optional (`nil` in Go); `FormParamFunc` is
embedded as always present (it is consulted only after the form-method
check). -/
structure Parser where
  ParamTagResolver : TagResolver
  PathParamFunc : Option PathParamFunc
  FormParamFunc : FormParamFunc

/-- `DefaultParser`: tag key `param`, no path-parameter function, default
form-parameter function. -/
def DefaultParser : Parser :=
  { ParamTagResolver := TagNameResolver "param"
    PathParamFunc := none
    FormParamFunc := DefaultFormParamFunc }

def Parser.WithPathParamFunc (p : Parser) (f : Param.PathParamFunc) : Parser :=
  { p with PathParamFunc := some f }

def Parser.WithFormParamFunc (p : Parser) (f : Param.FormParamFunc) : Parser :=
  { p with FormParamFunc := f }

/-- `resolveTagValueWithModifier` returns the parameter name in a tag
value of the form `"<tagModifier>=<name>"` (split by `strings.Split` on
`"="`; exactly two parts required). -/
def Parser.resolveTagValueWithModifier (_ : Parser)
    (tagValue tagModifier : String) : String × Bool :=
  let splits := splitOnChar '=' tagValue.toList
  match splits with
  | [a, b] => if String.mk a = tagModifier then (String.mk b, true) else ("", false)
  | _ => ("", false)

def Parser.resolveTagWithModifier (p : Parser) (fieldTag : StructTag)
    (tagModifier : String) : String × Bool :=
  let (tagValue, ok) := p.ParamTagResolver fieldTag
  if ok then p.resolveTagValueWithModifier tagValue tagModifier
  else ("", false)

/-- tag value modifier `path` (`pathTagValuePrefix` in the source). -/
def Parser.resolvePath (p : Parser) (fieldTag : StructTag) : String × Bool :=
  p.resolveTagWithModifier fieldTag "path"

/-- tag value modifier `form` (`formTagValuePrefix` in the source). -/
def Parser.resolveForm (p : Parser) (fieldTag : StructTag) : String × Bool :=
  p.resolveTagWithModifier fieldTag "form"

/-- tag value modifier `query` (`queryTagValuePrefix` in the source). -/
def Parser.resolveQuery (p : Parser) (fieldTag : StructTag) : String × Bool :=
  p.resolveTagWithModifier fieldTag "query"

/-! ## Field discovery -/

inductive ParamType where
  | query
  | path
  | form
deriving DecidableEq, Repr

/-- A discovered tagged field.  The source's `destValue` field (a
`reflect.Value` alias into the destination captured during `zeroPath`) is
embedded as the `indexPath` itself: the binding phase re-walks the path. -/
structure TaggedFieldIndexPath where
  paramType : ParamType
  paramName : String
  indexPath : List Nat
deriving DecidableEq, Repr

/-- `Parser.findTaggedIndexPaths`, iterating over a field list with `i`
the index of the first field of `flds` within the enclosing struct.
Anonymous fields whose (once-dereferenced) type is a struct are recursed
into — before the exported check, so unexported embedded structs are
traversed too; tag descriptors are then resolved for exported fields only,
appending one entry per matching modifier in the order path, form, query. -/
def Parser.findTaggedIndexPathsF (p : Parser) : Fields → List Nat → Nat →
    List TaggedFieldIndexPath → List TaggedFieldIndexPath
  | .nil, _, _, paths => paths
  | .cons name anon tag ty tl, cur, i, paths =>
    let paths :=
      if anon then
        match ty with
        | .strct _ inner => p.findTaggedIndexPathsF inner (cur ++ [i]) 0 paths
        | .ptr (.strct _ inner) => p.findTaggedIndexPathsF inner (cur ++ [i]) 0 paths
        | _ => paths
      else paths
    let paths :=
      if isExported name then
        let (pathName, okPath) := p.resolvePath tag
        let (formName, okForm) := p.resolveForm tag
        let (queryName, okQuery) := p.resolveQuery tag
        let newPath := cur ++ [i]
        let paths := if okPath then
          paths ++ [{ paramType := .path, paramName := pathName, indexPath := newPath }] else paths
        let paths := if okForm then
          paths ++ [{ paramType := .form, paramName := formName, indexPath := newPath }] else paths
        if okQuery then
          paths ++ [{ paramType := .query, paramName := queryName, indexPath := newPath }] else paths
      else paths
    p.findTaggedIndexPathsF tl cur (i + 1) paths

/-- `findTaggedIndexPaths` on a struct type. -/
def Parser.findTaggedIndexPaths (p : Parser) (t : Ty) (cur : List Nat)
    (paths : List TaggedFieldIndexPath) : List TaggedFieldIndexPath :=
  match t with
  | .strct _ flds => p.findTaggedIndexPathsF flds cur 0 paths
  | _ => paths

/-! ## Walking an index path

`zeroPath` iterates over an index path: at the top of each iteration a
pointer is dereferenced, then the field at the current index is selected;
the leaf is set to its zero value, and a nil intermediate pointer is
allocated (failing when the field is unexported and hence unsettable).
`zeroWalk` embeds the loop from the iteration whose post-dereference value
is the struct with fields `flds`/`vs`, current index `i`, remaining
indices `rest` (the dereference at the top of the next iteration is fused
into the step that enters the selected field).  Situations where the Go
code would panic (nil dereference, index out of range, field access on a
non-struct) yield a `GoError.panicked` marker. -/

def zeroWalk (flds : Fields) (vs : Values) (i : Nat) :
    List Nat → Option GoError × Values
  | [] =>
    (match flds.get i, vs.get i with
     | some (_, _, _, fty), some _ => (none, vs.set i (zeroValue fty))
     | _, _ => (some (.panicked "reflect: Field index out of range"), vs))
  | j :: rs =>
    match flds.get i, vs.get i with
    | some (fname, _, _, fty), some fv =>
      (match fty, fv with
       | .ptr pt, .vptrNil =>
         -- nil intermediate pointer: allocate `reflect.New(pt)` if settable
         if isExported fname then
           (match pt with
            | .strct _ flds2 =>
              let (e, vs2) := zeroWalk flds2 (zeroFields flds2) j rs
              (e, vs.set i (.vptr (.vstrct vs2)))
            | _ =>
              (some (.panicked "zeroPath: field access on non-struct"),
                vs.set i (.vptr (zeroValue pt))))
         else
           (some (.msg ("cannot set embedded pointer to unexported struct: " ++
             tyName pt)), vs)
       | .ptr (.strct _ flds2), .vptr (.vstrct vs2) =>
         let (e, vs2aft) := zeroWalk flds2 vs2 j rs
         (e, vs.set i (.vptr (.vstrct vs2aft)))
       | .strct _ flds2, .vstrct vs2 =>
         let (e, vs2aft) := zeroWalk flds2 vs2 j rs
         (e, vs.set i (.vstrct vs2aft))
       | _, _ => (some (.panicked "zeroPath: field access on non-struct"), vs))
    | _, _ => (some (.panicked "reflect: Field index out of range"), vs)

/-- `zeroPath(v, path)`: walk `path.indexPath` zeroing the leaf field and
allocating nil intermediate pointers.  (The source also records the leaf
`reflect.Value` in `path.destValue`; the binding phase re-walks the index
path instead.) -/
def zeroPath (t : Ty) (v : Value) (path : List Nat) : Option GoError × Value :=
  match path with
  | [] => (none, v)
  | i :: rest =>
    match t, v with
    | .ptr (.strct _ flds), .vptr (.vstrct vs) =>
      let (e, vs2) := zeroWalk flds vs i rest
      (e, .vptr (.vstrct vs2))
    | .strct _ flds, .vstrct vs =>
      let (e, vs2) := zeroWalk flds vs i rest
      (e, .vstrct vs2)
    | _, _ => (some (.panicked "zeroPath: field access on non-struct"), v)

/-! The binding phase writes through the leaf alias captured by `zeroPath`;
here this is a re-walk of the same index path applying an action at the
leaf field. -/

def writeWalk (act : Ty → Value → Option GoError × Value)
    (flds : Fields) (vs : Values) (i : Nat) :
    List Nat → Option GoError × Values
  | [] =>
    (match flds.get i, vs.get i with
     | some (_, _, _, fty), some fv =>
       let (e, w) := act fty fv
       (e, vs.set i w)
     | _, _ => (some (.panicked "reflect: Field index out of range"), vs))
  | j :: rs =>
    match flds.get i, vs.get i with
    | some (_, _, _, fty), some fv =>
      (match fty, fv with
       | .ptr (.strct _ flds2), .vptr (.vstrct vs2) =>
         let (e, vs2aft) := writeWalk act flds2 vs2 j rs
         (e, vs.set i (.vptr (.vstrct vs2aft)))
       | .strct _ flds2, .vstrct vs2 =>
         let (e, vs2aft) := writeWalk act flds2 vs2 j rs
         (e, vs.set i (.vstrct vs2aft))
       | _, _ => (some (.panicked "write: field access on non-struct"), vs))
    | _, _ => (some (.panicked "reflect: Field index out of range"), vs)

/-- Apply `act` to the leaf field addressed by `path` (the write through
the `destValue` alias). -/
def writeAtPath (t : Ty) (v : Value) (path : List Nat)
    (act : Ty → Value → Option GoError × Value) : Option GoError × Value :=
  match path with
  | [] => (none, v)
  | i :: rest =>
    match t, v with
    | .ptr (.strct _ flds), .vptr (.vstrct vs) =>
      let (e, vs2) := writeWalk act flds vs i rest
      (e, .vptr (.vstrct vs2))
    | .strct _ flds, .vstrct vs =>
      let (e, vs2) := writeWalk act flds vs i rest
      (e, .vstrct vs2)
    | _, _ => (some (.panicked "write: field access on non-struct"), v)

/-! Read-only observers over the same walk, used to state theorems. -/

def getWalk (flds : Fields) (vs : Values) (i : Nat) : List Nat → Option Value
  | [] =>
    (match flds.get i, vs.get i with
     | some _, some fv => some fv
     | _, _ => none)
  | j :: rs =>
    match flds.get i, vs.get i with
    | some (_, _, _, fty), some fv =>
      (match fty, fv with
       | .ptr (.strct _ flds2), .vptr (.vstrct vs2) => getWalk flds2 vs2 j rs
       | .strct _ flds2, .vstrct vs2 => getWalk flds2 vs2 j rs
       | _, _ => none)
    | _, _ => none

/-- The field value reached by walking an index path with the walkers'
dereference convention; `none` when the walk falls off a nil pointer, a
non-struct, or the field range. -/
def getAtPath (t : Ty) (v : Value) (path : List Nat) : Option Value :=
  match path with
  | [] => some v
  | i :: rest =>
    match t, v with
    | .ptr (.strct _ flds), .vptr (.vstrct vs) => getWalk flds vs i rest
    | .strct _ flds, .vstrct vs => getWalk flds vs i rest
    | _, _ => none

def typeWalk (flds : Fields) (i : Nat) : List Nat → Option Ty
  | [] =>
    (match flds.get i with
     | some (_, _, _, fty) => some fty
     | none => none)
  | j :: rs =>
    match flds.get i with
    | some (_, _, _, fty) =>
      (match fty with
       | .ptr (.strct _ flds2) => typeWalk flds2 j rs
       | .strct _ flds2 => typeWalk flds2 j rs
       | _ => none)
    | none => none

/-- The field type reached by walking an index path. -/
def typeAtPath (t : Ty) (path : List Nat) : Option Ty :=
  match path with
  | [] => some t
  | i :: rest =>
    match t with
    | .ptr (.strct _ flds) => typeWalk flds i rest
    | .strct _ flds => typeWalk flds i rest
    | _ => none


/-! ## Value coercion (`unmarshal*`)

`dest.Addr().Interface().(encoding.TextUnmarshaler)` holds exactly for
the opaquely-embedded `Ty.unmarshaler` types (a pointer to a pointer, or
to any other type, does not implement the interface). -/

def implementsTextUnmarshaler : Ty → Bool
  | .unmarshaler _ => true
  | _ => false

/-- `unmarshalPrimitiveValue(text, dest)`: the kind switch over the
destination, wrapping `strconv` errors with the field's type name. -/
def unmarshalPrimitiveValue (text : String) (t : Ty) (v : Value) :
    Option GoError × Value :=
  match t with
  | .bool =>
    (match goParseBool text with
     | .ok b => (none, .vbool b)
     | .error e => (some (.wrap ("parsing into field of type " ++ tyName t) e), v))
  | .int bits =>
    (match goParseInt text bits with
     | .ok n => (none, .vint n)
     | .error e => (some (.wrap ("parsing into field of type " ++ tyName t) e), v))
  | .uint bits =>
    (match goParseUint text bits with
     | .ok n => (none, .vuint n)
     | .error e => (some (.wrap ("parsing into field of type " ++ tyName t) e), v))
  | .float bits =>
    (match goParseFloat text bits with
     | .ok x => (none, .vfloat x)
     | .error e => (some (.wrap ("parsing into field of type " ++ tyName t) e), v))
  | .str => (none, .vstr text)
  | _ => (some (.msg ("unsupported field type " ++ tyName t)), v)

/-- `unmarshalValue(text, dest)`: `TextUnmarshaler` delegation first, then
pointer allocation (`reflect.New` then recurse on the pointee), then the
primitive kinds.  The modelled `UnmarshalText` records the exact text and
never fails. -/
def unmarshalValue (text : String) (t : Ty) (v : Value) : Option GoError × Value :=
  match t with
  | .unmarshaler _ => (none, .vunm (some text))
  | .ptr t0 =>
    let (e, w) := unmarshalValue text t0 (zeroValue t0)
    (e, .vptr w)
  | _ => unmarshalPrimitiveValue text t v

/-- The element loop of the slice case of `unmarshalValueOrSlice`:
each element of a freshly made slice is coerced independently via
`unmarshalValue`, an element failure is wrapped with its index. -/
def unmarshalSliceElems (et : Ty) : List String → Nat → Except GoError Values
  | [], _ => .ok .nil
  | text :: rest, i =>
    let (e, w) := unmarshalValue text et (zeroValue et)
    match e with
    | some err => .error (.wrap ("unmarshaling " ++ Nat.repr i ++ "th element") err)
    | none =>
      match unmarshalSliceElems et rest (i + 1) with
      | .error e2 => .error e2
      | .ok ws => .ok (.cons w ws)

/-- `unmarshalValueOrSlice(texts, dest)`: `TextUnmarshaler` (exactly one
value allowed), pointer allocation, slice (one element per value, set only
when every element coerces), otherwise exactly one value coerced as a
primitive. -/
def unmarshalValueOrSlice (texts : List String) (t : Ty) (v : Value) :
    Option GoError × Value :=
  match t with
  | .unmarshaler _ =>
    (match texts with
     | [text] => (none, .vunm (some text))
     | _ => (some (.msg ("too many parameters unmarshaling to " ++ tyName t ++
         ", expected up to 1 value")), v))
  | .ptr t0 =>
    let (e, w) := unmarshalValueOrSlice texts t0 (zeroValue t0)
    (e, .vptr w)
  | .slice et =>
    (match unmarshalSliceElems et texts 0 with
     | .error e => (some e, v)
     | .ok ws => (none, .vslice ws))
  | _ =>
    (match texts with
     | [text] => unmarshalPrimitiveValue text t v
     | _ => (some (.msg ("too many parameters unmarshaling to " ++ tyName t ++
         ", expected up to 1 value")), v))

/-! ## The per-source readers and `Parse` -/

/-- `parsePathParam`: requires `PathParamFunc`; an empty lookup result is
"no value supplied" (no write). -/
def Parser.parsePathParam (p : Parser) (r : Request) (paramName : String)
    (path : List Nat) (t : Ty) (v : Value) : Option GoError × Value :=
  match p.PathParamFunc with
  | none =>
    (some (.msg ("struct's field was tagged for parsing the path parameter (" ++
      paramName ++ ") but PathParamFunc to get value of path parameter is not defined")), v)
  | some f =>
    let paramValue := f r paramName
    if paramValue ≠ "" then
      writeAtPath t v path (fun ft fv =>
        let (e, w) := unmarshalValue paramValue ft fv
        (e.map (.wrap ("unmarshaling path parameter " ++ paramName)), w))
    else (none, v)

/-- `parseFormParam`: method must be POST, PUT or PATCH; multipart parse
first, standard form parse when the body is not multipart; an empty value
is "no value supplied". -/
def Parser.parseFormParam (p : Parser) (r : Request) (paramName : String)
    (path : List Nat) (t : Ty) (v : Value) : Option GoError × Value :=
  if r.method ≠ "POST" ∧ r.method ≠ "PUT" ∧ r.method ≠ "PATCH" then
    (some (.msg ("struct's field was tagged for parsing the form parameter (" ++
      paramName ++ ") but request method is not POST, PUT or PATCH")), v)
  else
    let bodyErr : Option GoError :=
      match r.multipartOutcome with
      | .failed m => some (.wrap "parsing multipart form" (.msg m))
      | .notMultipart =>
        (match r.formErr with
         | some m => some (.wrap "parsing form" (.msg m))
         | none => none)
      | .parsedOk => none
    match bodyErr with
    | some e => (some e, v)
    | none =>
      let paramValue := p.FormParamFunc r paramName
      if paramValue ≠ "" then
        writeAtPath t v path (fun ft fv =>
          let (e, w) := unmarshalValue paramValue ft fv
          (e.map (.wrap ("unmarshaling form parameter " ++ paramName)), w))
      else (none, v)

/-- `parseQueryParam`: all values under the name from the query multi-map;
absence leaves the field zeroed. -/
def Parser.parseQueryParam (_ : Parser) (r : Request) (paramName : String)
    (path : List Nat) (t : Ty) (v : Value) : Option GoError × Value :=
  let values := queryGet r.query paramName
  match values with
  | [] => (none, v)
  | _ =>
    writeAtPath t v path (fun ft fv =>
      let (e, w) := unmarshalValueOrSlice values ft fv
      (e.map (.wrap ("unmarshaling query parameter " ++ paramName)), w))

/-- `parseParam`: dispatch one discovered entry by source kind. -/
def Parser.parseParam (p : Parser) (r : Request) (path : TaggedFieldIndexPath)
    (t : Ty) (v : Value) : Option GoError × Value :=
  match path.paramType with
  | .path => p.parsePathParam r path.paramName path.indexPath t v
  | .form => p.parseFormParam r path.paramName path.indexPath t v
  | .query => p.parseQueryParam r path.paramName path.indexPath t v

/-- The zeroing loop of `Parse`: zero every discovered path, stopping at
the first error. -/
def zeroAll (t : Ty) (v : Value) : List TaggedFieldIndexPath → Option GoError × Value
  | [] => (none, v)
  | path :: rest =>
    let (e, v') := zeroPath t v path.indexPath
    match e with
    | some err => (some err, v')
    | none => zeroAll t v' rest

/-- The binding loop of `Parse`: process every discovered path in order,
stopping at the first error. -/
def Parser.bindAll (p : Parser) (r : Request) (t : Ty) (v : Value) :
    List TaggedFieldIndexPath → Option GoError × Value
  | [] => (none, v)
  | path :: rest =>
    let (e, v') := p.parseParam r path t v
    match e with
    | some err => (some err, v')
    | none => p.bindAll r t v' rest

/-- `Parser.Parse(r, dest)` where `dest` is a pointer to a value `v` of
struct type `t` (the source's non-pointer check is inherent in this
calling convention; the not-a-struct check is kept).  Discovers the tagged
index paths, zeroes all of them, then binds all of them, returning the
first error and the final state of `*dest`. -/
def Parser.Parse (p : Parser) (r : Request) (t : Ty) (v : Value) :
    Option GoError × Value :=
  match t with
  | .strct _ _ =>
    let paths := p.findTaggedIndexPaths t [] []
    let (e, v1) := zeroAll t v paths
    (match e with
     | some err => (some err, v1)
     | none => p.bindAll r t v1 paths)
  | _ => (some (.msg ("can only parse into struct, but got " ++ tyName t)), v)

/-! ## Derived notions used to state the properties -/

/-- Go `int`: 64-bit on the platforms the tests assume. -/
def goInt : Ty := .int 64

/-- `l₁` is a prefix of `l₂` (Boolean, on index paths). -/
def listIsPrefix : List Nat → List Nat → Bool
  | [], _ => true
  | _ :: _, [] => false
  | a :: as, b :: bs => a == b && listIsPrefix as bs

/-- Two index paths are prefix-related (one extends the other). -/
def prefixRelated (d q : List Nat) : Bool :=
  listIsPrefix d q || listIsPrefix q d

/-- No discovered index path strictly extends another (equal paths — the
same field registered for several sources — are allowed).  Under this
condition the re-walk embedding of the `destValue` aliases is faithful:
no intermediate pointer on a discovered path is re-pointed between the
capture in `zeroPath` and the write in the binding phase. -/
def NonNested (paths : List TaggedFieldIndexPath) : Prop :=
  ∀ d ∈ paths, ∀ e ∈ paths,
    listIsPrefix d.indexPath e.indexPath = true → d.indexPath = e.indexPath

instance (paths : List TaggedFieldIndexPath) : Decidable (NonNested paths) := by
  unfold NonNested
  infer_instance

/-- The request supplies no value for a discovered entry: the path lookup
(if configured) returns `""`, the query multi-map has no entry, or the
form lookup returns `""`. -/
def suppliesNoValue (p : Parser) (r : Request) (d : TaggedFieldIndexPath) : Prop :=
  match d.paramType with
  | .path =>
    (match p.PathParamFunc with
     | none => True
     | some f => f r d.paramName = "")
  | .query => queryGet r.query d.paramName = []
  | .form => p.FormParamFunc r d.paramName = ""

/-- The type after stripping pointer indirections. -/
def stripPtrs : Ty → Ty
  | .ptr t => stripPtrs t
  | t => t

def isSliceTy : Ty → Bool
  | .slice _ => true
  | _ => false

/-- The error is the coercer's "too many parameters" complaint. -/
def isTooManyErr : Option GoError → Bool
  | some (.msg s) => charListHasPre "too many parameters".toList s.toList
  | _ => false

/-! ## Concrete fixtures mirroring the package's test types -/

/-- A GET request carrying only a query string. -/
def getReq (q : List (String × String)) : Request :=
  { method := "GET", query := q, multipartOutcome := .notMultipart,
    formErr := none, postForm := [] }

/-- `EmbeddedStruct { Embedded string param:"query=embedded" }` -/
def EmbeddedStructTy : Ty :=
  .strct "EmbeddedStruct" (.cons "Embedded" false [("param", "query=embedded")] .str .nil)

/-- `embeddingStruct { EmbeddedStruct }` -/
def embeddingStructTy : Ty :=
  .strct "embeddingStruct" (.cons "EmbeddedStruct" true [] EmbeddedStructTy .nil)

/-- `embeddingPtrStruct { *EmbeddedStruct }` -/
def embeddingPtrStructTy : Ty :=
  .strct "embeddingPtrStruct" (.cons "EmbeddedStruct" true [] (.ptr EmbeddedStructTy) .nil)

/-- unexported `embeddedStruct { Embedded string param:"query=embedded" }` -/
def embeddedStructTy : Ty :=
  .strct "embeddedStruct" (.cons "Embedded" false [("param", "query=embedded")] .str .nil)

/-- `embeddingUnexported { embeddedStruct }` -/
def embeddingUnexportedTy : Ty :=
  .strct "embeddingUnexported" (.cons "embeddedStruct" true [] embeddedStructTy .nil)

/-- `embeddingUnexportedPtr { *embeddedStruct }` -/
def embeddingUnexportedPtrTy : Ty :=
  .strct "embeddingUnexportedPtr" (.cons "embeddedStruct" true [] (.ptr embeddedStructTy) .nil)

/-- the request `GET /hello?embedded=input` -/
def reqEmbedded : Request := getReq [("embedded", "input")]

/-- `otherFieldsStruct { Q string param:"query=q"; Other string json:"other" }` -/
def otherFieldsStructTy : Ty :=
  .strct "otherFieldsStruct"
    (.cons "Q" false [("param", "query=q")] .str
      (.cons "Other" false [("json", "other")] .str .nil))

/-- `{ SlicePrimitiveField []string param:"query=a" }` -/
def sliceStructTy : Ty :=
  .strct "structWithSlice" (.cons "SlicePrimitiveField" false [("param", "query=a")] (.slice .str) .nil)

/-- `{ Slice []int8 param:"query=x" }` -/
def sliceInt8StructTy : Ty :=
  .strct "sliceInt8Struct" (.cons "Slice" false [("param", "query=x")] (.slice (.int 8)) .nil)

/-- `{ UnmarshalerField myComplicatedType param:"query=c" }`, where
`*myComplicatedType` implements `encoding.TextUnmarshaler` -/
def unmStructTy : Ty :=
  .strct "structWithUnmarshaler"
    (.cons "UnmarshalerField" false [("param", "query=c")] (.unmarshaler "myComplicatedType") .nil)

/-- `{ PtrSliceField *[]string param:"query=a" }` -/
def ptrSliceStructTy : Ty :=
  .strct "structWithPtrSlice"
    (.cons "PtrSliceField" false [("param", "query=a")] (.ptr (.slice .str)) .nil)

/-- `{ F string param:"form=f" }` -/
def formStructTy : Ty :=
  .strct "formStruct" (.cons "F" false [("param", "form=f")] .str .nil)

/-- A single-field struct holding one value of type `t` under
`param:"query=v"`. -/
def numStructTy (t : Ty) : Ty :=
  .strct "numStruct" (.cons "V" false [("param", "query=v")] t .nil)

/-- Parse the single query value `s` into a `numStructTy t` destination. -/
def numParse (t : Ty) (s : String) : Option GoError × Value :=
  DefaultParser.Parse (getReq [("v", s)]) (numStructTy t) (zeroValue (numStructTy t))

/-- One bound-and-overflow test case of a numeric kind: the minimal and
maximal representable values with their expected parses, and the decimal
strings one representable step outside each end. -/
structure NumCase where
  ty : Ty
  minStr : String
  minVal : Value
  maxStr : String
  maxVal : Value
  belowStr : String
  aboveStr : String
deriving DecidableEq

/-- The largest finite `float64`, exactly, in decimal. -/
def maxF64Str : String := Nat.repr ((2 ^ 53 - 1) * 2 ^ 971)

/-- The successor of the largest finite `float64` (`2^1024`), in decimal. -/
def overF64Str : String := Nat.repr (2 ^ 1024)

/-- The largest finite `float32`, exactly, in decimal. -/
def maxF32Str : String := Nat.repr ((2 ^ 24 - 1) * 2 ^ 104)

/-- The successor of the largest finite `float32` (`2^128`), in decimal. -/
def overF32Str : String := Nat.repr (2 ^ 128)

/-- Every supported numeric field kind with its exact bounds (Go `int` and
`uint` are the 64-bit instances). -/
def numericCases : List NumCase :=
  [ ⟨.int 8, "-128", .vint (-128), "127", .vint 127, "-129", "128"⟩,
    ⟨.int 16, "-32768", .vint (-32768), "32767", .vint 32767, "-32769", "32768"⟩,
    ⟨.int 32, "-2147483648", .vint (-2147483648), "2147483647", .vint 2147483647,
      "-2147483649", "2147483648"⟩,
    ⟨.int 64, "-9223372036854775808", .vint (-9223372036854775808),
      "9223372036854775807", .vint 9223372036854775807,
      "-9223372036854775809", "9223372036854775808"⟩,
    ⟨.uint 8, "0", .vuint 0, "255", .vuint 255, "-1", "256"⟩,
    ⟨.uint 16, "0", .vuint 0, "65535", .vuint 65535, "-1", "65536"⟩,
    ⟨.uint 32, "0", .vuint 0, "4294967295", .vuint 4294967295, "-1", "4294967296"⟩,
    ⟨.uint 64, "0", .vuint 0, "18446744073709551615", .vuint 18446744073709551615,
      "-1", "18446744073709551616"⟩,
    ⟨.float 32, "-" ++ maxF32Str, .vfloat (.finite true (2 ^ 24 - 1) 104),
      maxF32Str, .vfloat (.finite false (2 ^ 24 - 1) 104),
      "-" ++ overF32Str, overF32Str⟩,
    ⟨.float 64, "-" ++ maxF64Str, .vfloat (.finite true (2 ^ 53 - 1) 971),
      maxF64Str, .vfloat (.finite false (2 ^ 53 - 1) 971),
      "-" ++ overF64Str, overF64Str⟩ ]

/-- A numeric case holds: both bounds round-trip exactly through `Parse`,
and one step outside either bound fails with an error that `errors.Is`
classifies as `ErrRange` and not as `ErrSyntax`.  (For the unsigned kinds
the step below the minimum, `"-1"`, is a syntax error in Go — `ParseUint`
rejects the sign — so there the below-minimum check is that `Parse` fails
with an `ErrSyntax`-classified, not range-classified, error.) -/
def numCaseOk (c : NumCase) : Bool :=
  (match numParse c.ty c.minStr with
   | (none, .vstrct (.cons w .nil)) => beqValue w c.minVal
   | _ => false) &&
  (match numParse c.ty c.maxStr with
   | (none, .vstrct (.cons w .nil)) => beqValue w c.maxVal
   | _ => false) &&
  (match (numParse c.ty c.belowStr).1 with
   | some e =>
     (match c.ty with
      | .uint _ => errorsIs e .errSyntax && !(errorsIs e .errRange)
      | _ => errorsIs e .errRange && !(errorsIs e .errSyntax))
   | none => false) &&
  (match (numParse c.ty c.aboveStr).1 with
   | some e => errorsIs e .errRange && !(errorsIs e .errSyntax)
   | none => false)

/-- Destination for the precedence scenario: one string field. -/
def singleStrStructTy : Ty :=
  .strct "singleStr" (.cons "V" false [("param", "query=n")] .str .nil)

/-- A parser whose path lookup always answers `"pathval"` and whose form
lookup always answers `"formval"`. -/
def parserPFQ : Parser :=
  { ParamTagResolver := TagNameResolver "param"
    PathParamFunc := some (fun _ _ => "pathval")
    FormParamFunc := fun _ _ => "formval" }

/-- POST request whose query supplies `n=queryval`. -/
def reqPFQ : Request :=
  { method := "POST", query := [("n", "queryval")], multipartOutcome := .parsedOk,
    formErr := none, postForm := [("n", "formval")] }

/-- Three discovered entries for the same field (index path `[0]`), one
per source kind. -/
def entryPath : TaggedFieldIndexPath := { paramType := .path, paramName := "n", indexPath := [0] }
def entryForm : TaggedFieldIndexPath := { paramType := .form, paramName := "n", indexPath := [0] }
def entryQuery : TaggedFieldIndexPath := { paramType := .query, paramName := "n", indexPath := [0] }

/-- POST request whose body fails the multipart parse with a non-sentinel
error, while the standard form parse would succeed. -/
def formReqMultipartFail : Request :=
  { method := "POST", query := [], multipartOutcome := MultipartOutcome.failed "bad",
    formErr := none, postForm := [("f", "val")] }

/-- POST request whose body is not multipart and fails the standard form
parse. -/
def formReqFormFail : Request :=
  { method := "POST", query := [], multipartOutcome := .notMultipart,
    formErr := some "bad", postForm := [("f", "val")] }

/-- POST request whose body is not multipart; the standard form parse
succeeds and supplies `f=val`. -/
def formReqOk : Request :=
  { method := "POST", query := [], multipartOutcome := .notMultipart,
    formErr := none, postForm := [("f", "val")] }

/-- POST multipart request supplying a present-but-empty `f`. -/
def formReqEmpty : Request :=
  { method := "POST", query := [], multipartOutcome := .parsedOk,
    formErr := none, postForm := [("f", "")] }

/-- `{ Bad int64 param:"query=b"; Other string json:"other" }` — used to
observe the frame property on an erroring parse. -/
def badOtherStructTy : Ty :=
  .strct "badOtherStruct"
    (.cons "Bad" false [("param", "query=b")] (.int 64)
      (.cons "Other" false [("json", "other")] .str .nil))

/-- Destination of the zero-phase-abort counterexample:
`{ *embeddedStruct; S string param:"query=s" }` — an unexported anonymous
pointer with a tagged field inside, followed by a tagged field holding a
sentinel. -/
def sentinelStructTy : Ty :=
  .strct "sentinelStruct"
    (.cons "embeddedStruct" true [] (.ptr embeddedStructTy)
      (.cons "S" false [("param", "query=s")] .str .nil))

/-- The pre-populated sentinel state of `sentinelStructTy`. -/
def sentinelInit : Value :=
  .vstrct (.cons .vptrNil (.cons (.vstr "sentinel") .nil))

/-! # Claim theorems -/

/-- **C3**: destination structs embedding an exported struct, an exported
pointer-to-struct, an unexported struct, and an unexported
pointer-to-struct each bind the tagged field nested inside; the
unexported-pointer case fails with an error whose message mentions the
unexported type's name (`embeddedStruct`). -/
theorem parse_embedded_cases :
    DefaultParser.Parse reqEmbedded embeddingStructTy (zeroValue embeddingStructTy) =
      (none, .vstrct (.cons (.vstrct (.cons (.vstr "input") .nil)) .nil)) ∧
    DefaultParser.Parse reqEmbedded embeddingPtrStructTy (zeroValue embeddingPtrStructTy) =
      (none, .vstrct (.cons (.vptr (.vstrct (.cons (.vstr "input") .nil))) .nil)) ∧
    DefaultParser.Parse reqEmbedded embeddingUnexportedTy (zeroValue embeddingUnexportedTy) =
      (none, .vstrct (.cons (.vstrct (.cons (.vstr "input") .nil)) .nil)) ∧
    (DefaultParser.Parse reqEmbedded embeddingUnexportedPtrTy
        (zeroValue embeddingUnexportedPtrTy)).1 =
      some (.msg "cannot set embedded pointer to unexported struct: embeddedStruct") ∧
    containsSubstr
      (errMessage (.msg "cannot set embedded pointer to unexported struct: embeddedStruct"))
      "embeddedStruct" = true :=
  ⟨rfl, rfl, rfl, rfl, rfl⟩

/-- **C4 counterexample**: a tagged field nested inside an *unexported*
anonymous struct field does participate in binding — `Parse` on
`embeddingUnexported` assigns `"input"` (not the zero value) to the
nested field. -/
theorem unexported_embedded_field_is_bound :
    DefaultParser.Parse reqEmbedded embeddingUnexportedTy (zeroValue embeddingUnexportedTy) =
      (none, .vstrct (.cons (.vstrct (.cons (.vstr "input") .nil)) .nil)) ∧
    getAtPath embeddingUnexportedTy
      (DefaultParser.Parse reqEmbedded embeddingUnexportedTy
        (zeroValue embeddingUnexportedTy)).2 [0, 0] = some (.vstr "input") ∧
    Value.vstr "input" ≠ zeroValue .str :=
  ⟨rfl, rfl, by decide⟩

/-- **C4 amended**: field discovery recurses into anonymous struct (and
pointer-to-struct) fields regardless of exportedness — for an unexported
anonymous struct field the discovered entries are exactly those found
inside it (no tag descriptors are resolved on the unexported field
itself), and such nested tagged fields do participate in binding. -/
theorem findTagged_traverses_unexported_anonymous
    (p : Parser) (name : String) (tag : StructTag) (sn : String)
    (inner : Fields) (tl : Fields) (cur : List Nat) (i : Nat)
    (acc : List TaggedFieldIndexPath)
    (h : isExported name = false) :
    p.findTaggedIndexPathsF (.cons name true tag (.strct sn inner) tl) cur i acc =
      p.findTaggedIndexPathsF tl cur (i + 1)
        (p.findTaggedIndexPathsF inner (cur ++ [i]) 0 acc) := by
  conv_lhs => rw [Parser.findTaggedIndexPathsF]
  simp [h]

/-- Witness for `findTagged_traverses_unexported_anonymous` at the
`embeddingUnexported` test type. -/
theorem findTagged_traverses_unexported_anonymous_witness :
    isExported "embeddedStruct" = false ∧
    DefaultParser.findTaggedIndexPathsF
        (.cons "embeddedStruct" true [] (.strct "embeddedStruct"
          (.cons "Embedded" false [("param", "query=embedded")] .str .nil)) .nil) [] 0 [] =
      DefaultParser.findTaggedIndexPathsF .nil [] 1
        (DefaultParser.findTaggedIndexPathsF
          (.cons "Embedded" false [("param", "query=embedded")] .str .nil) [0] 0 []) :=
  ⟨by decide, findTagged_traverses_unexported_anonymous DefaultParser "embeddedStruct" []
    "embeddedStruct" (.cons "Embedded" false [("param", "query=embedded")] .str .nil)
    .nil [] 0 [] (by decide)⟩

/-- **C5 counterexample**: for an unsigned kind the value one step below
the minimum (`"-1"` for `uint8`) makes `Parse` fail with an error that
`errors.Is` classifies as `ErrSyntax`, not `ErrRange` (Go's `ParseUint`
rejects the sign before any range consideration). -/
theorem uint_below_min_is_syntax_not_range :
    (numParse (.uint 8) "-1").1 =
      some (.wrap "unmarshaling query parameter v"
        (.wrap "parsing into field of type uint8"
          (.numError "ParseUint" "-1" .errSyntax))) ∧
    errorsIs (.wrap "unmarshaling query parameter v"
        (.wrap "parsing into field of type uint8"
          (.numError "ParseUint" "-1" .errSyntax))) .errSyntax = true ∧
    errorsIs (.wrap "unmarshaling query parameter v"
        (.wrap "parsing into field of type uint8"
          (.numError "ParseUint" "-1" .errSyntax))) .errRange = false :=
  ⟨rfl, rfl, rfl⟩

set_option maxRecDepth 10000 in
/-- **C5 amended**: for every supported integer and float kind, the
minimal and maximal representable values parse exactly through `Parse`,
and a value one step outside the range fails with an error classified as
`ErrRange` and not `ErrSyntax` — except the below-minimum step of the
unsigned kinds, which is a syntax error (sign rejected); the `strconv`
classification is preserved through `Parse`'s error wrapping. -/
theorem numeric_bounds_roundtrip : ∀ c ∈ numericCases, numCaseOk c = true := by
  decide

/-- Witness for `numeric_bounds_roundtrip` at the `int8` case. -/
theorem numeric_bounds_roundtrip_witness :
    numCaseOk ⟨.int 8, "-128", .vint (-128), "127", .vint 127, "-129", "128"⟩ = true :=
  numeric_bounds_roundtrip _ (by decide)

/-- **C6 counterexample**: a field of (non-slice) type `*[]string`
supplied two values for its parameter does not make `Parse` fail — the
pointer is allocated and the pointee slice receives both values. -/
theorem ptr_slice_two_values_no_error :
    isSliceTy (.ptr (.slice .str)) = false ∧
    DefaultParser.Parse (getReq [("a", "x"), ("a", "y")]) ptrSliceStructTy
        (zeroValue ptrSliceStructTy) =
      (none, .vstrct (.cons (.vptr (.vslice (.cons (.vstr "x")
        (.cons (.vstr "y") .nil)))) .nil)) :=
  ⟨rfl, rfl⟩


theorem charListHasPre_append (p r : List Char) : charListHasPre p (p ++ r) = true := by
  induction p with
  | nil => rfl
  | cons a as ih => simp [charListHasPre, ih]

/-- Any "too many parameters unmarshaling to <name><suffix>" message is
recognised by `isTooManyErr`. -/
theorem isTooManyErr_mk (x y : String) :
    isTooManyErr (some (.msg ("too many parameters unmarshaling to " ++ x ++ y))) = true := by
  have h : ("too many parameters unmarshaling to " ++ x ++ y).toList =
      "too many parameters".toList ++
        (" unmarshaling to ".toList ++ (x.toList ++ y.toList)) := by
    show ("too many parameters unmarshaling to " ++ x ++ y).data = _
    rw [String.data_append, String.data_append]
    have hlit : "too many parameters unmarshaling to ".data =
        "too many parameters".data ++ " unmarshaling to ".data := rfl
    rw [hlit]
    simp [String.toList]
  show charListHasPre _ _ = true
  rw [h]
  exact charListHasPre_append _ _

/-- Core of the amended C6: when the type left after stripping pointer
indirections is not a slice, two or more supplied values always produce
the "too many parameters" error, whatever the destination type. -/
theorem tooMany_nonSlice :
    ∀ (t : Ty) (v : Value) (texts : List String),
      isSliceTy (stripPtrs t) = false → 2 ≤ texts.length →
      isTooManyErr (unmarshalValueOrSlice texts t v).1 = true
  | .ptr t0, v, texts, h1, h2 => by
    have h1' : isSliceTy (stripPtrs t0) = false := h1
    have ih := tooMany_nonSlice t0 (zeroValue t0) texts h1' h2
    rcases hX : unmarshalValueOrSlice texts t0 (zeroValue t0) with ⟨e, w⟩
    rw [hX] at ih
    simp only [unmarshalValueOrSlice, hX]
    exact ih
  | .slice et, v, texts, h1, h2 => by
    exact absurd h1 (by simp [stripPtrs, isSliceTy])
  | .bool, v, texts, h1, h2 => by
    match texts, h2 with
    | a :: b :: rest, _ => exact isTooManyErr_mk _ _
  | .int bits, v, texts, h1, h2 => by
    match texts, h2 with
    | a :: b :: rest, _ => exact isTooManyErr_mk _ _
  | .uint bits, v, texts, h1, h2 => by
    match texts, h2 with
    | a :: b :: rest, _ => exact isTooManyErr_mk _ _
  | .float bits, v, texts, h1, h2 => by
    match texts, h2 with
    | a :: b :: rest, _ => exact isTooManyErr_mk _ _
  | .str, v, texts, h1, h2 => by
    match texts, h2 with
    | a :: b :: rest, _ => exact isTooManyErr_mk _ _
  | .strct n flds, v, texts, h1, h2 => by
    match texts, h2 with
    | a :: b :: rest, _ => exact isTooManyErr_mk _ _
  | .unmarshaler n, v, texts, h1, h2 => by
    match texts, h2 with
    | a :: b :: rest, _ => exact isTooManyErr_mk _ _
  | .unsupported n, v, texts, h1, h2 => by
    match texts, h2 with
    | a :: b :: rest, _ => exact isTooManyErr_mk _ _

/-- **C6 amended**: supplying two or more values errors with "too many
parameters" for every destination whose type is not a slice *after
stripping pointer indirections* (a pointer-to-slice destination accepts
multiple values, see the counterexample); for a `TextUnmarshaler`
destination exactly one value delegates coercion entirely to
`UnmarshalText` (observable: the value records exactly the received
text), and two values fail with the "too many parameters" error
end-to-end. -/
theorem too_many_values_non_slice :
    (∀ (t : Ty) (v : Value) (texts : List String),
        isSliceTy (stripPtrs t) = false → 2 ≤ texts.length →
        isTooManyErr (unmarshalValueOrSlice texts t v).1 = true) ∧
    (∀ (n : String) (text : String) (v : Value),
        unmarshalValueOrSlice [text] (.unmarshaler n) v = (none, .vunm (some text))) ∧
    (DefaultParser.Parse (getReq [("c", "yes"), ("c", "no")]) unmStructTy
        (zeroValue unmStructTy)).1 =
      some (.wrap "unmarshaling query parameter c"
        (.msg "too many parameters unmarshaling to myComplicatedType, expected up to 1 value")) ∧
    DefaultParser.Parse (getReq [("c", "wow")]) unmStructTy (zeroValue unmStructTy) =
      (none, .vstrct (.cons (.vunm (some "wow")) .nil)) :=
  ⟨tooMany_nonSlice, fun _ _ _ => rfl, rfl, rfl⟩

/-- Witness for `too_many_values_non_slice`: the universal part applied to
a plain `string` destination with two values. -/
theorem too_many_values_non_slice_witness :
    isSliceTy (stripPtrs .str) = false ∧ 2 ≤ ["x", "y"].length ∧
    isTooManyErr (unmarshalValueOrSlice ["x", "y"] .str (.vstr "")).1 = true :=
  ⟨rfl, by decide, too_many_values_non_slice.1 .str (.vstr "") ["x", "y"] rfl (by decide)⟩

/-- **C8**: query-tagged slice fields receive one element per supplied
value in request order (overwriting any pre-existing slice), an absent
parameter leaves the nil slice (overwriting any pre-existing slice), and
an element that fails to coerce aborts with an error naming the offending
index and preserving the `strconv` classification. -/
theorem query_slice_binding :
    DefaultParser.Parse (getReq [("a", "x"), ("a", "y")]) sliceStructTy
        (.vstrct (.cons (.vslice (.cons (.vstr "old") .nil)) .nil)) =
      (none, .vstrct (.cons (.vslice (.cons (.vstr "x") (.cons (.vstr "y") .nil))) .nil)) ∧
    DefaultParser.Parse (getReq [("a", "x")]) sliceStructTy (zeroValue sliceStructTy) =
      (none, .vstrct (.cons (.vslice (.cons (.vstr "x") .nil)) .nil)) ∧
    DefaultParser.Parse (getReq [("something_else", "hmm")]) sliceStructTy
        (.vstrct (.cons (.vslice (.cons (.vstr "old") .nil)) .nil)) =
      (none, .vstrct (.cons .vsliceNil .nil)) ∧
    (DefaultParser.Parse (getReq [("x", "127"), ("x", "128")]) sliceInt8StructTy
        (zeroValue sliceInt8StructTy)).1 =
      some (.wrap "unmarshaling query parameter x"
        (.wrap "unmarshaling 1th element"
          (.wrap "parsing into field of type int8"
            (.numError "ParseInt" "128" .errRange)))) ∧
    errorsIs (.wrap "unmarshaling query parameter x"
        (.wrap "unmarshaling 1th element"
          (.wrap "parsing into field of type int8"
            (.numError "ParseInt" "128" .errRange)))) .errRange = true ∧
    containsSubstr (errMessage (.wrap "unmarshaling query parameter x"
        (.wrap "unmarshaling 1th element"
          (.wrap "parsing into field of type int8"
            (.numError "ParseInt" "128" .errRange))))) "1th element" = true :=
  ⟨rfl, rfl, rfl, rfl, rfl, rfl⟩


theorem splitOnChar_ne_nil (c : Char) (l : List Char) : splitOnChar c l ≠ [] := by
  cases l with
  | nil => simp [splitOnChar]
  | cons x xs =>
    simp only [splitOnChar]
    split
    · simp
    · split <;> simp

theorem splitOnChar_of_not_mem (c : Char) (l : List Char) (h : c ∉ l) :
    splitOnChar c l = [l] := by
  induction l with
  | nil => rfl
  | cons x xs ih =>
    have hx : ¬ x = c := fun hc => h (hc ▸ List.mem_cons_self x xs)
    have hxs : c ∉ xs := fun hc => h (List.mem_cons_of_mem x hc)
    simp only [splitOnChar, if_neg hx, ih hxs]

theorem splitOnChar_singleton (c : Char) (l b : List Char)
    (h : splitOnChar c l = [b]) : l = b ∧ c ∉ b := by
  induction l generalizing b with
  | nil =>
    simp only [splitOnChar] at h
    simp at h
    subst h
    simp
  | cons x xs ih =>
    by_cases hx : x = c
    · rw [splitOnChar, if_pos hx] at h
      simp at h
      exact absurd h.2 (splitOnChar_ne_nil c xs)
    · rw [splitOnChar, if_neg hx] at h
      rcases hs : splitOnChar c xs with - | ⟨hh, t⟩
      · exact absurd hs (splitOnChar_ne_nil c xs)
      · rw [hs] at h
        simp at h
        obtain ⟨hb, ht⟩ := h
        subst ht
        obtain ⟨hxh, hch⟩ := ih hh hs
        subst hxh
        refine ⟨hb, ?_⟩
        subst hb
        simp [hch]
        exact fun hc => hx hc.symm

theorem splitOnChar_pair (c : Char) (l a b : List Char)
    (h : splitOnChar c l = [a, b]) : l = a ++ c :: b ∧ c ∉ a ∧ c ∉ b := by
  induction l generalizing a with
  | nil => simp [splitOnChar] at h
  | cons x xs ih =>
    by_cases hx : x = c
    · rw [splitOnChar, if_pos hx] at h
      simp at h
      obtain ⟨ha, hs⟩ := h
      obtain ⟨hxb, hcb⟩ := splitOnChar_singleton c xs b hs
      subst ha hxb hx
      simp [hcb]
    · rw [splitOnChar, if_neg hx] at h
      rcases hs : splitOnChar c xs with - | ⟨hh, t⟩
      · exact absurd hs (splitOnChar_ne_nil c xs)
      · rw [hs] at h
        simp at h
        obtain ⟨ha, ht⟩ := h
        subst ht
        obtain ⟨hxs, hch, hcb⟩ := ih hh hs
        subst hxs ha
        refine ⟨by simp, ?_, hcb⟩
        simp [hch]
        exact fun hc => hx hc.symm

theorem splitOnChar_append_pair (c : Char) (a b : List Char)
    (ha : c ∉ a) (hb : c ∉ b) : splitOnChar c (a ++ c :: b) = [a, b] := by
  induction a with
  | nil => simp [splitOnChar, splitOnChar_of_not_mem c b hb]
  | cons x as ih =>
    have hx : ¬ x = c := fun hc => ha (hc ▸ List.mem_cons_self x as)
    have has : c ∉ as := fun hc => ha (List.mem_cons_of_mem x hc)
    simp only [List.cons_append, splitOnChar, if_neg hx]
    rw [show as.append (c :: b) = as ++ c :: b from rfl, ih has]


/-- **C9**: the tag resolver yields `(name, true)` exactly when the tag
value splits on `=` into exactly two parts with the first equal to the
requested modifier; in every other situation (zero or several `=`, wrong
modifier, wrong or absent tag key) it silently yields `ok = false` —
being a total function it can neither panic nor error. -/
theorem tag_resolver_exact :
    (∀ (p : Parser) (tagValue tagModifier nm : String),
        p.resolveTagValueWithModifier tagValue tagModifier = (nm, true) ↔
          (tagValue.toList = tagModifier.toList ++ '=' :: nm.toList ∧
           '=' ∉ tagModifier.toList ∧ '=' ∉ nm.toList)) ∧
    (∀ (p : Parser) (tagValue tagModifier : String),
        (p.resolveTagValueWithModifier tagValue tagModifier).2 = true ∨
        p.resolveTagValueWithModifier tagValue tagModifier = ("", false)) ∧
    (∀ (key tagModifier : String) (tag : StructTag), tagGet tag key = "" →
        (Parser.mk (TagNameResolver key) none DefaultFormParamFunc).resolveTagWithModifier
          tag tagModifier = ("", false)) ∧
    (Parser.mk (TagNameResolver "key") none DefaultFormParamFunc).resolveTagWithModifier
      [("key", "location=val")] "location" = ("val", true) ∧
    (Parser.mk (TagNameResolver "key") none DefaultFormParamFunc).resolveTagWithModifier
      [("key", "location=val=excessive")] "location" = ("", false) ∧
    (Parser.mk (TagNameResolver "key") none DefaultFormParamFunc).resolveTagWithModifier
      [("key", "no-equal-sign")] "location" = ("", false) ∧
    (Parser.mk (TagNameResolver "key") none DefaultFormParamFunc).resolveTagWithModifier
      [("another", "location=val")] "location" = ("", false) ∧
    (Parser.mk (TagNameResolver "key") none DefaultFormParamFunc).resolveTagWithModifier
      [("key", "another=val")] "location" = ("", false) := by
  refine ⟨?_, ?_, ?_, rfl, rfl, rfl, rfl, rfl⟩
  · intro p tagValue tagModifier nm
    constructor
    · intro h
      rw [Parser.resolveTagValueWithModifier] at h
      rcases hs : splitOnChar '=' tagValue.toList with _ | ⟨a, _ | ⟨b, _ | ⟨c2, t⟩⟩⟩ <;>
        rw [hs] at h
      · exact absurd (congrArg Prod.snd h) (by simp)
      · exact absurd (congrArg Prod.snd h) (by simp)
      · have h' : (if String.mk a = tagModifier then ((String.mk b : String), true)
            else (("" : String), false)) = (nm, true) := h
        by_cases hif : String.mk a = tagModifier
        · rw [if_pos hif] at h'
          have hnm : String.mk b = nm := congrArg Prod.fst h'
          obtain ⟨hl, hca, hcb⟩ := splitOnChar_pair '=' tagValue.toList a b hs
          subst hnm
          rw [← hif]
          exact ⟨hl, hca, hcb⟩
        · rw [if_neg hif] at h'
          exact absurd (congrArg Prod.snd h') (by simp)
      · exact absurd (congrArg Prod.snd h) (by simp)
    · rintro ⟨h1, h2, h3⟩
      rw [Parser.resolveTagValueWithModifier]
      have hs : splitOnChar '=' tagValue.toList = [tagModifier.toList, nm.toList] := by
        rw [h1]
        exact splitOnChar_append_pair '=' tagModifier.toList nm.toList h2 h3
      rw [hs]
      show (if String.mk tagModifier.toList = tagModifier
          then ((String.mk nm.toList : String), true)
          else (("" : String), false)) = (nm, true)
      rw [if_pos (show (String.mk tagModifier.toList : String) = tagModifier from rfl)]
      rfl
  · intro p tagValue tagModifier
    rw [Parser.resolveTagValueWithModifier]
    rcases hs : splitOnChar '=' tagValue.toList with _ | ⟨a, _ | ⟨b, _ | ⟨c2, t⟩⟩⟩
    · exact Or.inr rfl
    · exact Or.inr rfl
    · show (if String.mk a = tagModifier then ((String.mk b : String), true)
          else (("" : String), false)).2 = true ∨
        (if String.mk a = tagModifier then ((String.mk b : String), true)
          else (("" : String), false)) = ("", false)
      by_cases hif : String.mk a = tagModifier
      · rw [if_pos hif]
        exact Or.inl rfl
      · rw [if_neg hif]
        exact Or.inr rfl
    · exact Or.inr rfl
  · intro key tagModifier tag h
    simp [Parser.resolveTagWithModifier, TagNameResolver, h]


/-- Witness for `tag_resolver_exact`: the backward direction of the iff at
the default tag grammar, and the absent-key case. -/
theorem tag_resolver_exact_witness :
    DefaultParser.resolveTagValueWithModifier "query=a" "query" = ("a", true) ∧
    (Parser.mk (TagNameResolver "key") none DefaultFormParamFunc).resolveTagWithModifier
      [("another", "location=val")] "location" = ("", false) :=
  ⟨(tag_resolver_exact.1 DefaultParser "query=a" "query" "a").mpr (by decide),
   tag_resolver_exact.2.2.1 "key" "location" [("another", "location=val")] rfl⟩


/-- One non-anonymous exported field appends its entries in the order
path, form, query (whatever the field's type). -/
theorem findTagged_single_field_order (p : Parser) (name : String) (tag : StructTag)
    (ty : Ty) (cur : List Nat) (i : Nat) (acc : List TaggedFieldIndexPath)
    (hexp : isExported name = true) :
    p.findTaggedIndexPathsF (.cons name false tag ty .nil) cur i acc =
      acc ++
        (if (p.resolvePath tag).2 then
          [{ paramType := .path, paramName := (p.resolvePath tag).1,
             indexPath := cur ++ [i] }] else []) ++
        (if (p.resolveForm tag).2 then
          [{ paramType := .form, paramName := (p.resolveForm tag).1,
             indexPath := cur ++ [i] }] else []) ++
        (if (p.resolveQuery tag).2 then
          [{ paramType := .query, paramName := (p.resolveQuery tag).1,
             indexPath := cur ++ [i] }] else []) := by
  have main :
      (if isExported name then
        (let pr := p.resolvePath tag
         let fr := p.resolveForm tag
         let qr := p.resolveQuery tag
         let newPath := cur ++ [i]
         let paths := if pr.2 then
           acc ++ [{ paramType := .path, paramName := pr.1, indexPath := newPath }] else acc
         let paths := if fr.2 then
           paths ++ [{ paramType := .form, paramName := fr.1, indexPath := newPath }] else paths
         if qr.2 then
           paths ++ [{ paramType := .query, paramName := qr.1, indexPath := newPath }] else paths)
       else acc) =
      acc ++
        (if (p.resolvePath tag).2 then
          [{ paramType := .path, paramName := (p.resolvePath tag).1,
             indexPath := cur ++ [i] }] else []) ++
        (if (p.resolveForm tag).2 then
          [{ paramType := .form, paramName := (p.resolveForm tag).1,
             indexPath := cur ++ [i] }] else []) ++
        (if (p.resolveQuery tag).2 then
          [{ paramType := .query, paramName := (p.resolveQuery tag).1,
             indexPath := cur ++ [i] }] else []) := by
    rw [hexp]
    simp only [if_true]
    rcases hp : p.resolvePath tag with ⟨pn, okp⟩
    rcases hf : p.resolveForm tag with ⟨fn, okf⟩
    rcases hq : p.resolveQuery tag with ⟨qn, okq⟩
    simp only [hp, hf, hq]
    cases okp <;> cases okf <;> cases okq <;> simp [List.append_assoc]
  cases ty <;> first
    | exact main
    | (rename_i t0; cases t0 <;> exact main)

theorem resolve_modifiers_exclusive (p : Parser) (tv m1 m2 : String)
    (h1 : (p.resolveTagValueWithModifier tv m1).2 = true)
    (h2 : (p.resolveTagValueWithModifier tv m2).2 = true) : m1 = m2 := by
  rw [Parser.resolveTagValueWithModifier] at h1 h2
  rcases hs : splitOnChar '=' tv.toList with _ | ⟨a, _ | ⟨b, _ | ⟨c2, t⟩⟩⟩ <;> rw [hs] at h1 h2
  · simp at h1
  · simp at h1
  · have h1' : (if String.mk a = m1 then ((String.mk b : String), true)
        else (("" : String), false)).2 = true := h1
    have h2' : (if String.mk a = m2 then ((String.mk b : String), true)
        else (("" : String), false)).2 = true := h2
    by_cases e1 : String.mk a = m1
    · by_cases e2 : String.mk a = m2
      · rw [← e1, ← e2]
      · rw [if_neg e2] at h2'
        simp at h2'
    · rw [if_neg e1] at h1'
      simp at h1'
  · simp at h1


/-- **C2**: per field, discovery appends at most one entry per source
kind in the order path, form, query, and the binding loop processes
entries in list order, so for entries sharing one field the last
processed source wins — a supplied query value overrides a path or form
value for the same field.  (With a deterministic tag resolver the three
modifiers are mutually exclusive on one tag value — see
`resolve_modifiers_exclusive` — so in a discovered list produced by
`findTaggedIndexPaths` a field never carries entries for two kinds; the
last-wins behavior is exhibited on the binding loop itself.) -/
theorem source_precedence_path_form_query :
    (∀ (p : Parser) (name : String) (tag : StructTag) (ty : Ty)
        (cur : List Nat) (i : Nat) (acc : List TaggedFieldIndexPath),
        isExported name = true →
        p.findTaggedIndexPathsF (.cons name false tag ty .nil) cur i acc =
          acc ++
            (if (p.resolvePath tag).2 then
              [{ paramType := .path, paramName := (p.resolvePath tag).1,
                 indexPath := cur ++ [i] }] else []) ++
            (if (p.resolveForm tag).2 then
              [{ paramType := .form, paramName := (p.resolveForm tag).1,
                 indexPath := cur ++ [i] }] else []) ++
            (if (p.resolveQuery tag).2 then
              [{ paramType := .query, paramName := (p.resolveQuery tag).1,
                 indexPath := cur ++ [i] }] else [])) ∧
    (∀ (p : Parser) (tv m1 m2 : String),
        (p.resolveTagValueWithModifier tv m1).2 = true →
        (p.resolveTagValueWithModifier tv m2).2 = true → m1 = m2) ∧
    parserPFQ.bindAll reqPFQ singleStrStructTy (zeroValue singleStrStructTy)
        [entryPath] = (none, .vstrct (.cons (.vstr "pathval") .nil)) ∧
    parserPFQ.bindAll reqPFQ singleStrStructTy (zeroValue singleStrStructTy)
        [entryPath, entryForm] = (none, .vstrct (.cons (.vstr "formval") .nil)) ∧
    parserPFQ.bindAll reqPFQ singleStrStructTy (zeroValue singleStrStructTy)
        [entryPath, entryForm, entryQuery] =
      (none, .vstrct (.cons (.vstr "queryval") .nil)) :=
  ⟨findTagged_single_field_order, resolve_modifiers_exclusive, rfl, rfl, rfl⟩

/-- Witness for `source_precedence_path_form_query`: the order statement
applied to a concrete field carrying a query tag, and exclusivity applied
to a concrete tag value. -/
theorem source_precedence_path_form_query_witness :
    DefaultParser.findTaggedIndexPathsF
        (.cons "Q" false [("param", "query=q")] .str .nil) [] 0 [] =
      [] ++ [] ++ [] ++
        [{ paramType := .query, paramName := "q", indexPath := [0] }] ∧
    "query" = "query" :=
  ⟨by
    have h := source_precedence_path_form_query.1 DefaultParser "Q"
      [("param", "query=q")] .str [] 0 [] (by decide)
    simpa using h,
   source_precedence_path_form_query.2.1 DefaultParser "query=q" "query" "query"
     (by decide) (by decide)⟩


/-- `parseFormParam` on a non-mutating method always errors without
touching the destination. -/
theorem parseFormParam_bad_method (p : Parser) (r : Request) (nm : String)
    (path : List Nat) (t : Ty) (v : Value)
    (h1 : r.method ≠ "POST") (h2 : r.method ≠ "PUT") (h3 : r.method ≠ "PATCH") :
    p.parseFormParam r nm path t v =
      (some (.msg ("struct's field was tagged for parsing the form parameter (" ++ nm ++
        ") but request method is not POST, PUT or PATCH")), v) := by
  rw [Parser.parseFormParam, if_pos ⟨h1, h2, h3⟩]

/-- If some entry of the list always fails to parse, the binding loop
fails. -/
theorem bindAll_mem_always_fails (p : Parser) (r : Request) (t : Ty)
    (d : TaggedFieldIndexPath)
    (hfail : ∀ v, (p.parseParam r d t v).1 ≠ none) :
    ∀ (l : List TaggedFieldIndexPath) (v : Value), d ∈ l →
      (p.bindAll r t v l).1 ≠ none := by
  intro l
  induction l with
  | nil => intro v h; simp at h
  | cons hd tl ih =>
    intro v hmem
    rw [Parser.bindAll]
    rcases hp : p.parseParam r hd t v with ⟨e, v2⟩
    rcases List.mem_cons.mp hmem with heq | hmem2
    · cases e with
      | some err => simp
      | none =>
        subst heq
        exact absurd hp.symm (by
          intro hcontra
          exact hfail v (by rw [← hcontra]))
    · cases e with
      | some err => simp
      | none => exact ih v2 hmem2

/-- **C7**: a form-tagged discovered field with a request method other
than POST, PUT or PATCH makes `Parse` fail; form binding attempts the
multipart parse first (its non-`ErrNotMultipart` failure is reported even
when the standard parse would succeed), falls back to the standard form
parse when the body is not multipart (reporting its failure), and treats
a present-but-empty value as no value supplied: the field stays zeroed
and no error is raised. -/
theorem form_binding_rules :
    (∀ (p : Parser) (r : Request) (t : Ty) (v : Value) (d : TaggedFieldIndexPath),
        d ∈ p.findTaggedIndexPaths t [] [] → d.paramType = .form →
        r.method ≠ "POST" → r.method ≠ "PUT" → r.method ≠ "PATCH" →
        (p.Parse r t v).1 ≠ none) ∧
    (DefaultParser.Parse formReqMultipartFail formStructTy (zeroValue formStructTy)).1 =
      some (.wrap "parsing multipart form" (.msg "bad")) ∧
    (DefaultParser.Parse formReqFormFail formStructTy (zeroValue formStructTy)).1 =
      some (.wrap "parsing form" (.msg "bad")) ∧
    DefaultParser.Parse formReqOk formStructTy (zeroValue formStructTy) =
      (none, .vstrct (.cons (.vstr "val") .nil)) ∧
    DefaultParser.Parse formReqEmpty formStructTy
        (.vstrct (.cons (.vstr "sentinel") .nil)) =
      (none, .vstrct (.cons (.vstr "") .nil)) := by
  refine ⟨?_, rfl, rfl, rfl, rfl⟩
  intro p r t v d hmem hform h1 h2 h3
  have hfail : ∀ v0, (p.parseParam r d t v0).1 ≠ none := by
    intro v0
    rw [Parser.parseParam, hform, parseFormParam_bad_method p r d.paramName d.indexPath t v0 h1 h2 h3]
    simp
  cases t with
  | strct sn flds =>
    rw [Parser.Parse]
    rcases hz : zeroAll (.strct sn flds) v (p.findTaggedIndexPaths (.strct sn flds) [] []) with ⟨e1, v1⟩
    cases e1 with
    | some err => simp
    | none => exact bindAll_mem_always_fails p r (.strct sn flds) d hfail _ v1 hmem
  | bool => simp [Parser.findTaggedIndexPaths] at hmem
  | int bits => simp [Parser.findTaggedIndexPaths] at hmem
  | uint bits => simp [Parser.findTaggedIndexPaths] at hmem
  | float bits => simp [Parser.findTaggedIndexPaths] at hmem
  | str => simp [Parser.findTaggedIndexPaths] at hmem
  | ptr t0 => simp [Parser.findTaggedIndexPaths] at hmem
  | slice t0 => simp [Parser.findTaggedIndexPaths] at hmem
  | unmarshaler n => simp [Parser.findTaggedIndexPaths] at hmem
  | unsupported n => simp [Parser.findTaggedIndexPaths] at hmem

/-- Witness for `form_binding_rules`: a GET request against the concrete
form-tagged struct fails. -/
theorem form_binding_rules_witness :
    ({ paramType := ParamType.form, paramName := "f", indexPath := [0] } ∈
      DefaultParser.findTaggedIndexPaths formStructTy [] []) ∧
    (DefaultParser.Parse (getReq [("f", "x")]) formStructTy (zeroValue formStructTy)).1 ≠ none :=
  ⟨by decide,
   form_binding_rules.1 DefaultParser (getReq [("f", "x")]) formStructTy
     (zeroValue formStructTy) { paramType := .form, paramName := "f", indexPath := [0] }
     (by decide) rfl (by decide) (by decide) (by decide)⟩


theorem Values.get_set_ne : ∀ (vs : Values) (i j : Nat) (w : Value), i ≠ j →
    (vs.set i w).get j = vs.get j
  | .nil, _, _, _, _ => rfl
  | .cons _ _, 0, 0, _, h => absurd rfl h
  | .cons _ _, 0, _ + 1, _, _ => rfl
  | .cons _ _, _ + 1, 0, _, _ => rfl
  | .cons _ tl, i + 1, j + 1, w, h =>
    Values.get_set_ne tl i j w (fun e => h (by rw [e]))

/-- The value `zeroWalk` returns differs from its input at most at its
own index. -/
theorem zeroWalk_snd_shape (rest : List Nat) (flds : Fields) (vs : Values) (i : Nat) :
    (zeroWalk flds vs i rest).2 = vs ∨ ∃ w, (zeroWalk flds vs i rest).2 = vs.set i w := by
  cases rest with
  | nil =>
    rw [zeroWalk]
    repeat' first
      | exact Or.inl rfl
      | exact Or.inr ⟨_, rfl⟩
      | split
  | cons r rs =>
    rw [zeroWalk]
    repeat' first
      | exact Or.inl rfl
      | exact Or.inr ⟨_, rfl⟩
      | split

/-- The value `writeWalk` returns differs from its input at most at its
own index. -/
theorem writeWalk_snd_shape (act : Ty → Value → Option GoError × Value)
    (rest : List Nat) (flds : Fields) (vs : Values) (i : Nat) :
    (writeWalk act flds vs i rest).2 = vs ∨
    ∃ w, (writeWalk act flds vs i rest).2 = vs.set i w := by
  cases rest with
  | nil =>
    rw [writeWalk]
    repeat' first
      | exact Or.inl rfl
      | exact Or.inr ⟨_, rfl⟩
      | split
  | cons r rs =>
    rw [writeWalk]
    repeat' first
      | exact Or.inl rfl
      | exact Or.inr ⟨_, rfl⟩
      | split

/-- `zeroWalk` only changes the entry at its own index. -/
theorem zeroWalk_get_ne (rest : List Nat) (flds : Fields) (vs : Values)
    (i j : Nat) (h : i ≠ j) :
    (zeroWalk flds vs i rest).2.get j = vs.get j := by
  rcases zeroWalk_snd_shape rest flds vs i with hs | ⟨w, hs⟩
  · rw [hs]
  · rw [hs, Values.get_set_ne vs i j w h]

/-- `writeWalk` only changes the entry at its own index. -/
theorem writeWalk_get_ne (act : Ty → Value → Option GoError × Value)
    (rest : List Nat) (flds : Fields) (vs : Values) (i j : Nat) (h : i ≠ j) :
    (writeWalk act flds vs i rest).2.get j = vs.get j := by
  rcases writeWalk_snd_shape act rest flds vs i with hs | ⟨w, hs⟩
  · rw [hs]
  · rw [hs, Values.get_set_ne vs i j w h]


/-- `zeroPath` leaves every top-level field other than the head of its
path unchanged. -/
theorem zeroPath_head_frame (t : Ty) (v : Value) (path : List Nat) (j : Nat)
    (h : path.head? ≠ some j) :
    getAtPath t (zeroPath t v path).2 [j] = getAtPath t v [j] := by
  cases path with
  | nil => rfl
  | cons i rest =>
    have hij : i ≠ j := fun e => h (by subst e; rfl)
    cases t with
    | ptr t0 =>
      cases t0 <;> cases v <;> try rfl
      case strct.vptr sn flds v0 =>
        cases v0 <;> try rfl
        case vstrct vs =>
          rcases hw : zeroWalk flds vs i rest with ⟨e, vs2⟩
          have hg := zeroWalk_get_ne rest flds vs i j hij
          rw [hw] at hg
          simp only [zeroPath, hw, getAtPath, getWalk, hg]
    | strct sn flds =>
      cases v <;> try rfl
      case vstrct vs =>
        rcases hw : zeroWalk flds vs i rest with ⟨e, vs2⟩
        have hg := zeroWalk_get_ne rest flds vs i j hij
        rw [hw] at hg
        simp only [zeroPath, hw, getAtPath, getWalk, hg]
    | bool => cases v <;> rfl
    | int bits => cases v <;> rfl
    | uint bits => cases v <;> rfl
    | float bits => cases v <;> rfl
    | str => cases v <;> rfl
    | slice t0 => cases v <;> rfl
    | unmarshaler n => cases v <;> rfl
    | unsupported n => cases v <;> rfl

/-- `writeAtPath` leaves every top-level field other than the head of its
path unchanged. -/
theorem writeAtPath_head_frame (act : Ty → Value → Option GoError × Value)
    (t : Ty) (v : Value) (path : List Nat) (j : Nat)
    (h : path.head? ≠ some j) :
    getAtPath t (writeAtPath t v path act).2 [j] = getAtPath t v [j] := by
  cases path with
  | nil => rfl
  | cons i rest =>
    have hij : i ≠ j := fun e => h (by subst e; rfl)
    cases t with
    | ptr t0 =>
      cases t0 <;> cases v <;> try rfl
      case strct.vptr sn flds v0 =>
        cases v0 <;> try rfl
        case vstrct vs =>
          rcases hw : writeWalk act flds vs i rest with ⟨e, vs2⟩
          have hg := writeWalk_get_ne act rest flds vs i j hij
          rw [hw] at hg
          simp only [writeAtPath, hw, getAtPath, getWalk, hg]
    | strct sn flds =>
      cases v <;> try rfl
      case vstrct vs =>
        rcases hw : writeWalk act flds vs i rest with ⟨e, vs2⟩
        have hg := writeWalk_get_ne act rest flds vs i j hij
        rw [hw] at hg
        simp only [writeAtPath, hw, getAtPath, getWalk, hg]
    | bool => cases v <;> rfl
    | int bits => cases v <;> rfl
    | uint bits => cases v <;> rfl
    | float bits => cases v <;> rfl
    | str => cases v <;> rfl
    | slice t0 => cases v <;> rfl
    | unmarshaler n => cases v <;> rfl
    | unsupported n => cases v <;> rfl

/-- One binding step leaves every top-level field other than the head of
its entry's path unchanged (whether or not it errors). -/
theorem parseParam_head_frame (p : Parser) (r : Request) (d : TaggedFieldIndexPath)
    (t : Ty) (v : Value) (j : Nat) (h : d.indexPath.head? ≠ some j) :
    getAtPath t (p.parseParam r d t v).2 [j] = getAtPath t v [j] := by
  rcases d with ⟨pt, nm, ip⟩
  have h' : ip.head? ≠ some j := h
  cases pt with
  | path =>
    show getAtPath t (p.parsePathParam r nm ip t v).2 [j] = getAtPath t v [j]
    rw [Parser.parsePathParam]
    repeat' first
      | rfl
      | exact writeAtPath_head_frame _ t v ip j h'
      | dsimp only
      | split
  | form =>
    show getAtPath t (p.parseFormParam r nm ip t v).2 [j] = getAtPath t v [j]
    rw [Parser.parseFormParam]
    repeat' first
      | rfl
      | exact writeAtPath_head_frame _ t v ip j h'
      | dsimp only
      | split
  | query =>
    show getAtPath t (p.parseQueryParam r nm ip t v).2 [j] = getAtPath t v [j]
    rw [Parser.parseQueryParam]
    repeat' first
      | rfl
      | exact writeAtPath_head_frame _ t v ip j h'
      | dsimp only
      | split

/-- The zeroing loop leaves every top-level field not heading any listed
path unchanged. -/
theorem zeroAll_head_frame (t : Ty) (j : Nat) :
    ∀ (l : List TaggedFieldIndexPath) (v : Value),
      (∀ d ∈ l, d.indexPath.head? ≠ some j) →
      getAtPath t (zeroAll t v l).2 [j] = getAtPath t v [j] := by
  intro l
  induction l with
  | nil => intro v _; rfl
  | cons hd tl ih =>
    intro v hl
    rw [zeroAll]
    rcases hz : zeroPath t v hd.indexPath with ⟨e, v2⟩
    have h1 := zeroPath_head_frame t v hd.indexPath j (hl hd (List.mem_cons_self hd tl))
    rw [hz] at h1
    cases e with
    | some err => exact h1
    | none =>
      have h2 := ih v2 (fun d hd2 => hl d (List.mem_cons_of_mem hd hd2))
      exact h2.trans h1

/-- The binding loop leaves every top-level field not heading any listed
path unchanged. -/
theorem bindAll_head_frame (p : Parser) (r : Request) (t : Ty) (j : Nat) :
    ∀ (l : List TaggedFieldIndexPath) (v : Value),
      (∀ d ∈ l, d.indexPath.head? ≠ some j) →
      getAtPath t (p.bindAll r t v l).2 [j] = getAtPath t v [j] := by
  intro l
  induction l with
  | nil => intro v _; rfl
  | cons hd tl ih =>
    intro v hl
    rw [Parser.bindAll]
    rcases hp : p.parseParam r hd t v with ⟨e, v2⟩
    have h1 := parseParam_head_frame p r hd t v j (hl hd (List.mem_cons_self hd tl))
    rw [hp] at h1
    cases e with
    | some err => exact h1
    | none =>
      have h2 := ih v2 (fun d hd2 => hl d (List.mem_cons_of_mem hd hd2))
      exact h2.trans h1


/-- **C10 amended**: every top-level field that no discovered path enters
(in particular every non-anonymous field for which no tag descriptor
resolves: untagged exported fields, fields tagged under a different key,
unexported fields) is left unchanged by `Parse`, whether it returns `nil`
or an error. -/
theorem untouched_fields_frame :
    (∀ (p : Parser) (r : Request) (t : Ty) (v : Value) (j : Nat),
        (∀ d ∈ p.findTaggedIndexPaths t [] [], d.indexPath.head? ≠ some j) →
        getAtPath t (p.Parse r t v).2 [j] = getAtPath t v [j]) ∧
    DefaultParser.Parse (getReq [("q", "input")]) otherFieldsStructTy
        (.vstrct (.cons (.vstr "") (.cons (.vstr "already filled") .nil))) =
      (none, .vstrct (.cons (.vstr "input") (.cons (.vstr "already filled") .nil))) ∧
    DefaultParser.Parse (getReq [("b", "not-a-number")]) badOtherStructTy
        (.vstrct (.cons (.vint 7) (.cons (.vstr "keep") .nil))) =
      (some (.wrap "unmarshaling query parameter b"
        (.wrap "parsing into field of type int64"
          (.numError "ParseInt" "not-a-number" .errSyntax))),
       .vstrct (.cons (.vint 0) (.cons (.vstr "keep") .nil))) := by
  refine ⟨?_, rfl, rfl⟩
  intro p r t v j hj
  cases t with
  | strct sn flds =>
    rw [Parser.Parse]
    rcases hz : zeroAll (.strct sn flds) v
        (p.findTaggedIndexPaths (.strct sn flds) [] []) with ⟨e1, v1⟩
    have h1 := zeroAll_head_frame (.strct sn flds) j
      (p.findTaggedIndexPaths (.strct sn flds) [] []) v hj
    rw [hz] at h1
    cases e1 with
    | some err => exact h1
    | none =>
      have h2 := bindAll_head_frame p r (.strct sn flds) j
        (p.findTaggedIndexPaths (.strct sn flds) [] []) v1 hj
      exact h2.trans h1
  | bool => rfl
  | int bits => rfl
  | uint bits => rfl
  | float bits => rfl
  | str => rfl
  | ptr t0 => rfl
  | slice t0 => rfl
  | unmarshaler n => rfl
  | unsupported n => rfl

/-- Witness for `untouched_fields_frame` at the does-not-overwrite test
scenario. -/
theorem untouched_fields_frame_witness :
    (∀ d ∈ DefaultParser.findTaggedIndexPaths otherFieldsStructTy [] [],
        d.indexPath.head? ≠ some 1) ∧
    getAtPath otherFieldsStructTy
        (DefaultParser.Parse (getReq [("q", "input")]) otherFieldsStructTy
          (.vstrct (.cons (.vstr "") (.cons (.vstr "already filled") .nil)))).2 [1] =
      getAtPath otherFieldsStructTy
        (.vstrct (.cons (.vstr "") (.cons (.vstr "already filled") .nil))) [1] :=
  ⟨by decide,
   untouched_fields_frame.1 DefaultParser (getReq [("q", "input")]) otherFieldsStructTy
     (.vstrct (.cons (.vstr "") (.cons (.vstr "already filled") .nil))) 1 (by decide)⟩

/-- **C10 counterexample**: the untagged exported anonymous field of
`embeddingStruct` (no tag descriptor resolves on it — its tag is empty)
is zeroed and re-assigned by `Parse`: the pre-populated embedded value
does not survive. -/
theorem untagged_anonymous_field_changed :
    (DefaultParser.resolvePath ([] : StructTag)).2 = false ∧
    (DefaultParser.resolveForm ([] : StructTag)).2 = false ∧
    (DefaultParser.resolveQuery ([] : StructTag)).2 = false ∧
    getAtPath embeddingStructTy
        (DefaultParser.Parse reqEmbedded embeddingStructTy
          (.vstrct (.cons (.vstrct (.cons (.vstr "sentinel") .nil)) .nil))).2 [0] =
      some (.vstrct (.cons (.vstr "input") .nil)) ∧
    getAtPath embeddingStructTy
        (.vstrct (.cons (.vstrct (.cons (.vstr "sentinel") .nil)) .nil)) [0] =
      some (.vstrct (.cons (.vstr "sentinel") .nil)) ∧
    Value.vstrct (.cons (.vstr "input") .nil) ≠ .vstrct (.cons (.vstr "sentinel") .nil) :=
  ⟨rfl, rfl, rfl, rfl, rfl, by decide⟩


theorem Values.get_set_self : ∀ (vs : Values) (i : Nat) (fv w : Value),
    vs.get i = some fv → (vs.set i w).get i = some w
  | .nil, i, fv, w, h => by simp [Values.get] at h
  | .cons v tl, 0, fv, w, _ => rfl
  | .cons v tl, i + 1, fv, w, h => Values.get_set_self tl i fv w h

theorem getWalk_set_ne (flds : Fields) (vs : Values) (i j : Nat) (w : Value)
    (qrest : List Nat) (h : i ≠ j) :
    getWalk flds (vs.set i w) j qrest = getWalk flds vs j qrest := by
  cases qrest with
  | nil => rw [getWalk, getWalk, Values.get_set_ne vs i j w h]
  | cons q qs => rw [getWalk, getWalk, Values.get_set_ne vs i j w h]

theorem prefixRelated_cons_same (a : Nat) (l m : List Nat) :
    prefixRelated (a :: l) (a :: m) = prefixRelated l m := by
  simp [prefixRelated, listIsPrefix]

theorem prefixRelated_cons_ne (a b : Nat) (l m : List Nat) (h : a ≠ b) :
    prefixRelated (a :: l) (b :: m) = false := by
  simp only [prefixRelated, listIsPrefix, Bool.or_eq_false_iff, Bool.and_eq_false_iff]
  refine ⟨Or.inl ?_, Or.inl ?_⟩
  · simp [h]
  · simp
    exact fun e => absurd e.symm h

theorem prefixRelated_nil_left (m : List Nat) : prefixRelated [] m = true := by
  simp [prefixRelated, listIsPrefix]

theorem prefixRelated_nil_right (l : List Nat) : prefixRelated l [] = true := by
  cases l <;> simp [prefixRelated, listIsPrefix]

theorem listIsPrefix_refl : ∀ (l : List Nat), listIsPrefix l l = true
  | [] => rfl
  | a :: l => by simp [listIsPrefix, listIsPrefix_refl l]

/-- A successful `zeroWalk` walks through existing structs only, and leaves
the zero value of the leaf field type at the walked path. -/
theorem zeroWalk_zero : ∀ (rest : List Nat) (flds : Fields) (vs : Values) (i : Nat)
    (vs2 : Values), zeroWalk flds vs i rest = (none, vs2) →
    ∃ dt, typeWalk flds i rest = some dt ∧
      getWalk flds vs2 i rest = some (zeroValue dt) := by
  intro rest
  induction rest with
  | nil =>
    intro flds vs i vs2 h
    rw [zeroWalk] at h
    rcases hf : flds.get i with _ | ⟨fname, fanon, ftag, fty⟩ <;> rw [hf] at h
    · exact Option.noConfusion (congrArg Prod.fst h)
    · rcases hv : vs.get i with _ | fv <;> rw [hv] at h
      · exact Option.noConfusion (congrArg Prod.fst h)
      · have h2 : vs.set i (zeroValue fty) = vs2 := congrArg Prod.snd h
        subst h2
        refine ⟨fty, ?_, ?_⟩
        · rw [typeWalk, hf]
        · rw [getWalk, hf, Values.get_set_self vs i _ _ hv]
  | cons j rs ih =>
    intro flds vs i vs2 h
    rw [zeroWalk] at h
    rcases hf : flds.get i with _ | ⟨fname, fanon, ftag, fty⟩ <;> rw [hf] at h
    · exact Option.noConfusion (congrArg Prod.fst h)
    · rcases hv : vs.get i with _ | fv <;> rw [hv] at h
      · exact Option.noConfusion (congrArg Prod.fst h)
      · dsimp only at h
        cases fty with
        | ptr pt =>
          cases fv with
          | vptrNil =>
            try dsimp only at h
            cases he : isExported fname <;> rw [he] at h
            · cases pt <;> exact Option.noConfusion (congrArg Prod.fst h)
            · cases pt <;> try exact Option.noConfusion (congrArg Prod.fst h)
              rename_i sn2 flds2
              have h1 : (zeroWalk flds2 (zeroFields flds2) j rs).1 = none :=
                congrArg Prod.fst h
              have h2 : vs.set i
                  (.vptr (.vstrct (zeroWalk flds2 (zeroFields flds2) j rs).2)) = vs2 :=
                congrArg Prod.snd h
              subst h2
              have hz : zeroWalk flds2 (zeroFields flds2) j rs =
                  (none, (zeroWalk flds2 (zeroFields flds2) j rs).2) := by
                rw [← h1]
              obtain ⟨dt, ht, hg⟩ := ih flds2 (zeroFields flds2) j _ hz
              refine ⟨dt, ?_, ?_⟩
              · rw [typeWalk, hf]; exact ht
              · rw [getWalk, hf, Values.get_set_self vs i _ _ hv]; exact hg
          | vptr v0 =>
            cases pt <;> cases v0 <;> try exact Option.noConfusion (congrArg Prod.fst h)
            rename_i sn2 flds2 vs0
            have h1 : (zeroWalk flds2 vs0 j rs).1 = none := congrArg Prod.fst h
            have h2 : vs.set i (.vptr (.vstrct (zeroWalk flds2 vs0 j rs).2)) = vs2 :=
              congrArg Prod.snd h
            subst h2
            have hz : zeroWalk flds2 vs0 j rs =
                (none, (zeroWalk flds2 vs0 j rs).2) := by
              rw [← h1]
            obtain ⟨dt, ht, hg⟩ := ih flds2 vs0 j _ hz
            refine ⟨dt, ?_, ?_⟩
            · rw [typeWalk, hf]; exact ht
            · rw [getWalk, hf, Values.get_set_self vs i _ _ hv]; exact hg
          | vbool b => cases pt <;> exact Option.noConfusion (congrArg Prod.fst h)
          | vint n => cases pt <;> exact Option.noConfusion (congrArg Prod.fst h)
          | vuint n => cases pt <;> exact Option.noConfusion (congrArg Prod.fst h)
          | vfloat y => cases pt <;> exact Option.noConfusion (congrArg Prod.fst h)
          | vstr s => cases pt <;> exact Option.noConfusion (congrArg Prod.fst h)
          | vsliceNil => cases pt <;> exact Option.noConfusion (congrArg Prod.fst h)
          | vslice ws => cases pt <;> exact Option.noConfusion (congrArg Prod.fst h)
          | vstrct ws => cases pt <;> exact Option.noConfusion (congrArg Prod.fst h)
          | vunm o => cases pt <;> exact Option.noConfusion (congrArg Prod.fst h)
          | vunsupported => cases pt <;> exact Option.noConfusion (congrArg Prod.fst h)
        | strct sn2 flds2 =>
          cases fv <;> try exact Option.noConfusion (congrArg Prod.fst h)
          rename_i vs0
          have h1 : (zeroWalk flds2 vs0 j rs).1 = none := congrArg Prod.fst h
          have h2 : vs.set i (.vstrct (zeroWalk flds2 vs0 j rs).2) = vs2 :=
            congrArg Prod.snd h
          subst h2
          have hz : zeroWalk flds2 vs0 j rs =
              (none, (zeroWalk flds2 vs0 j rs).2) := by
            rw [← h1]
          obtain ⟨dt, ht, hg⟩ := ih flds2 vs0 j _ hz
          refine ⟨dt, ?_, ?_⟩
          · rw [typeWalk, hf]; exact ht
          · rw [getWalk, hf, Values.get_set_self vs i _ _ hv]; exact hg
        | bool => cases fv <;> exact Option.noConfusion (congrArg Prod.fst h)
        | int bits => cases fv <;> exact Option.noConfusion (congrArg Prod.fst h)
        | uint bits => cases fv <;> exact Option.noConfusion (congrArg Prod.fst h)
        | float bits => cases fv <;> exact Option.noConfusion (congrArg Prod.fst h)
        | str => cases fv <;> exact Option.noConfusion (congrArg Prod.fst h)
        | slice t0 => cases fv <;> exact Option.noConfusion (congrArg Prod.fst h)
        | unmarshaler n => cases fv <;> exact Option.noConfusion (congrArg Prod.fst h)
        | unsupported n => cases fv <;> exact Option.noConfusion (congrArg Prod.fst h)

/-- `zeroWalk` preserves the value read at any path that is neither a
prefix nor an extension of the zeroed path, provided the read succeeded
before the zeroing. -/
theorem zeroWalk_pres : ∀ (rest : List Nat) (flds : Fields) (vs : Values) (i k : Nat)
    (krest : List Nat) (x : Value),
    prefixRelated (i :: rest) (k :: krest) = false →
    getWalk flds vs k krest = some x →
    getWalk flds (zeroWalk flds vs i rest).2 k krest = some x := by
  intro rest
  induction rest with
  | nil =>
    intro flds vs i k krest x hpr hget
    have hik : i ≠ k := by
      intro e
      subst e
      simp [prefixRelated, listIsPrefix] at hpr
    rcases zeroWalk_snd_shape [] flds vs i with hs | ⟨w, hs⟩ <;> rw [hs]
    · exact hget
    · rw [getWalk_set_ne flds vs i k w krest hik]
      exact hget
  | cons j rs ih =>
    intro flds vs i k krest x hpr hget
    by_cases hik : i = k
    case neg =>
      rcases zeroWalk_snd_shape (j :: rs) flds vs i with hs | ⟨w, hs⟩ <;> rw [hs]
      · exact hget
      · rw [getWalk_set_ne flds vs i k w krest hik]
        exact hget
    case pos =>
      subst hik
      cases krest with
      | nil => simp [prefixRelated, listIsPrefix, listIsPrefix_refl] at hpr
      | cons k2 krest2 =>
        rw [prefixRelated_cons_same] at hpr
        rw [getWalk] at hget
        rw [zeroWalk]
        rcases hf : flds.get i with _ | ⟨fname, fanon, ftag, fty⟩ <;> rw [hf] at hget
        · exact Option.noConfusion hget
        · rcases hv : vs.get i with _ | fv <;> rw [hv] at hget
          · exact Option.noConfusion hget
          · cases fty with
            | ptr pt =>
              cases fv with
              | vptrNil => cases pt <;> exact Option.noConfusion hget
              | vptr v0 =>
                cases pt <;> cases v0 <;> try exact Option.noConfusion hget
                rename_i sn2 flds2 vs0
                show getWalk flds
                    (vs.set i (.vptr (.vstrct (zeroWalk flds2 vs0 j rs).2))) i
                    (k2 :: krest2) = some x
                rw [getWalk, hf, Values.get_set_self vs i _ _ hv]
                exact ih flds2 vs0 j k2 krest2 x hpr hget
              | vbool b => cases pt <;> exact Option.noConfusion hget
              | vint n => cases pt <;> exact Option.noConfusion hget
              | vuint n => cases pt <;> exact Option.noConfusion hget
              | vfloat y => cases pt <;> exact Option.noConfusion hget
              | vstr s => cases pt <;> exact Option.noConfusion hget
              | vsliceNil => cases pt <;> exact Option.noConfusion hget
              | vslice ws => cases pt <;> exact Option.noConfusion hget
              | vstrct ws => cases pt <;> exact Option.noConfusion hget
              | vunm o => cases pt <;> exact Option.noConfusion hget
              | vunsupported => cases pt <;> exact Option.noConfusion hget
            | strct sn2 flds2 =>
              cases fv <;> try exact Option.noConfusion hget
              rename_i vs0
              show getWalk flds
                  (vs.set i (.vstrct (zeroWalk flds2 vs0 j rs).2)) i
                  (k2 :: krest2) = some x
              rw [getWalk, hf, Values.get_set_self vs i _ _ hv]
              exact ih flds2 vs0 j k2 krest2 x hpr hget
            | bool => cases fv <;> exact Option.noConfusion hget
            | int bits => cases fv <;> exact Option.noConfusion hget
            | uint bits => cases fv <;> exact Option.noConfusion hget
            | float bits => cases fv <;> exact Option.noConfusion hget
            | str => cases fv <;> exact Option.noConfusion hget
            | slice t0 => cases fv <;> exact Option.noConfusion hget
            | unmarshaler n => cases fv <;> exact Option.noConfusion hget
            | unsupported n => cases fv <;> exact Option.noConfusion hget

/-- `writeWalk` preserves the value read at any path that is neither a
prefix nor an extension of the written path, provided the read succeeded
before the write. -/
theorem writeWalk_pres (act : Ty → Value → Option GoError × Value) :
    ∀ (rest : List Nat) (flds : Fields) (vs : Values) (i k : Nat)
    (krest : List Nat) (x : Value),
    prefixRelated (i :: rest) (k :: krest) = false →
    getWalk flds vs k krest = some x →
    getWalk flds (writeWalk act flds vs i rest).2 k krest = some x := by
  intro rest
  induction rest with
  | nil =>
    intro flds vs i k krest x hpr hget
    have hik : i ≠ k := by
      intro e
      subst e
      simp [prefixRelated, listIsPrefix] at hpr
    rcases writeWalk_snd_shape act [] flds vs i with hs | ⟨w, hs⟩ <;> rw [hs]
    · exact hget
    · rw [getWalk_set_ne flds vs i k w krest hik]
      exact hget
  | cons j rs ih =>
    intro flds vs i k krest x hpr hget
    by_cases hik : i = k
    case neg =>
      rcases writeWalk_snd_shape act (j :: rs) flds vs i with hs | ⟨w, hs⟩ <;> rw [hs]
      · exact hget
      · rw [getWalk_set_ne flds vs i k w krest hik]
        exact hget
    case pos =>
      subst hik
      cases krest with
      | nil => simp [prefixRelated, listIsPrefix, listIsPrefix_refl] at hpr
      | cons k2 krest2 =>
        rw [prefixRelated_cons_same] at hpr
        rw [getWalk] at hget
        rw [writeWalk]
        rcases hf : flds.get i with _ | ⟨fname, fanon, ftag, fty⟩ <;> rw [hf] at hget
        · exact Option.noConfusion hget
        · rcases hv : vs.get i with _ | fv <;> rw [hv] at hget
          · exact Option.noConfusion hget
          · cases fty with
            | ptr pt =>
              cases fv with
              | vptrNil => cases pt <;> exact Option.noConfusion hget
              | vptr v0 =>
                cases pt <;> cases v0 <;> try exact Option.noConfusion hget
                rename_i sn2 flds2 vs0
                show getWalk flds
                    (vs.set i (.vptr (.vstrct (writeWalk act flds2 vs0 j rs).2))) i
                    (k2 :: krest2) = some x
                rw [getWalk, hf, Values.get_set_self vs i _ _ hv]
                exact ih flds2 vs0 j k2 krest2 x hpr hget
              | vbool b => cases pt <;> exact Option.noConfusion hget
              | vint n => cases pt <;> exact Option.noConfusion hget
              | vuint n => cases pt <;> exact Option.noConfusion hget
              | vfloat y => cases pt <;> exact Option.noConfusion hget
              | vstr s => cases pt <;> exact Option.noConfusion hget
              | vsliceNil => cases pt <;> exact Option.noConfusion hget
              | vslice ws => cases pt <;> exact Option.noConfusion hget
              | vstrct ws => cases pt <;> exact Option.noConfusion hget
              | vunm o => cases pt <;> exact Option.noConfusion hget
              | vunsupported => cases pt <;> exact Option.noConfusion hget
            | strct sn2 flds2 =>
              cases fv <;> try exact Option.noConfusion hget
              rename_i vs0
              show getWalk flds
                  (vs.set i (.vstrct (writeWalk act flds2 vs0 j rs).2)) i
                  (k2 :: krest2) = some x
              rw [getWalk, hf, Values.get_set_self vs i _ _ hv]
              exact ih flds2 vs0 j k2 krest2 x hpr hget
            | bool => cases fv <;> exact Option.noConfusion hget
            | int bits => cases fv <;> exact Option.noConfusion hget
            | uint bits => cases fv <;> exact Option.noConfusion hget
            | float bits => cases fv <;> exact Option.noConfusion hget
            | str => cases fv <;> exact Option.noConfusion hget
            | slice t0 => cases fv <;> exact Option.noConfusion hget
            | unmarshaler n => cases fv <;> exact Option.noConfusion hget
            | unsupported n => cases fv <;> exact Option.noConfusion hget

/-- A successful `zeroPath` leaves the zero value of the leaf field type
at its path. -/
theorem zeroPath_at (t : Ty) (v : Value) (path : List Nat) (v2 : Value)
    (hne : path ≠ []) (h : zeroPath t v path = (none, v2)) :
    ∃ dt, typeAtPath t path = some dt ∧
      getAtPath t v2 path = some (zeroValue dt) := by
  cases path with
  | nil => exact absurd rfl hne
  | cons i rest =>
    cases t with
    | ptr t0 =>
      cases t0 <;> cases v <;> try exact Option.noConfusion (congrArg Prod.fst h)
      case strct.vptr sn flds v0 =>
        cases v0 <;> try exact Option.noConfusion (congrArg Prod.fst h)
        case vstrct vs =>
          have h1 : (zeroWalk flds vs i rest).1 = none := congrArg Prod.fst h
          have h2 : Value.vptr (.vstrct (zeroWalk flds vs i rest).2) = v2 :=
            congrArg Prod.snd h
          subst h2
          have hz : zeroWalk flds vs i rest =
              (none, (zeroWalk flds vs i rest).2) := by
            rw [← h1]
          exact zeroWalk_zero rest flds vs i _ hz
    | strct sn flds =>
      cases v <;> try exact Option.noConfusion (congrArg Prod.fst h)
      case vstrct vs =>
        have h1 : (zeroWalk flds vs i rest).1 = none := congrArg Prod.fst h
        have h2 : Value.vstrct (zeroWalk flds vs i rest).2 = v2 :=
          congrArg Prod.snd h
        subst h2
        have hz : zeroWalk flds vs i rest =
            (none, (zeroWalk flds vs i rest).2) := by
          rw [← h1]
        exact zeroWalk_zero rest flds vs i _ hz
    | bool => cases v <;> exact Option.noConfusion (congrArg Prod.fst h)
    | int bits => cases v <;> exact Option.noConfusion (congrArg Prod.fst h)
    | uint bits => cases v <;> exact Option.noConfusion (congrArg Prod.fst h)
    | float bits => cases v <;> exact Option.noConfusion (congrArg Prod.fst h)
    | str => cases v <;> exact Option.noConfusion (congrArg Prod.fst h)
    | slice t0 => cases v <;> exact Option.noConfusion (congrArg Prod.fst h)
    | unmarshaler n => cases v <;> exact Option.noConfusion (congrArg Prod.fst h)
    | unsupported n => cases v <;> exact Option.noConfusion (congrArg Prod.fst h)

/-- `zeroPath` preserves the value readable at any path not prefix-related
to the zeroed path. -/
theorem zeroPath_pres (t : Ty) (v : Value) (path q' : List Nat) (x : Value)
    (hpr : prefixRelated path q' = false) (hg : getAtPath t v q' = some x) :
    getAtPath t (zeroPath t v path).2 q' = some x := by
  cases path with
  | nil => exact hg
  | cons i rest =>
    cases q' with
    | nil => rw [prefixRelated_nil_right] at hpr; exact Bool.noConfusion hpr
    | cons k krest =>
      cases t with
      | ptr t0 =>
        cases t0 <;> cases v <;> try exact hg
        case strct.vptr sn flds v0 =>
          cases v0 <;> try exact hg
          case vstrct vs => exact zeroWalk_pres rest flds vs i k krest x hpr hg
      | strct sn flds =>
        cases v <;> try exact hg
        case vstrct vs => exact zeroWalk_pres rest flds vs i k krest x hpr hg
      | bool => exact hg
      | int bits => exact hg
      | uint bits => exact hg
      | float bits => exact hg
      | str => exact hg
      | slice t0 => exact hg
      | unmarshaler n => exact hg
      | unsupported n => exact hg

/-- `writeAtPath` preserves the value readable at any path not
prefix-related to the written path. -/
theorem writeAtPath_pres (act : Ty → Value → Option GoError × Value)
    (t : Ty) (v : Value) (path q' : List Nat) (x : Value)
    (hpr : prefixRelated path q' = false) (hg : getAtPath t v q' = some x) :
    getAtPath t (writeAtPath t v path act).2 q' = some x := by
  cases path with
  | nil => exact hg
  | cons i rest =>
    cases q' with
    | nil => rw [prefixRelated_nil_right] at hpr; exact Bool.noConfusion hpr
    | cons k krest =>
      cases t with
      | ptr t0 =>
        cases t0 <;> cases v <;> try exact hg
        case strct.vptr sn flds v0 =>
          cases v0 <;> try exact hg
          case vstrct vs =>
            exact writeWalk_pres act rest flds vs i k krest x hpr hg
      | strct sn flds =>
        cases v <;> try exact hg
        case vstrct vs =>
          exact writeWalk_pres act rest flds vs i k krest x hpr hg
      | bool => exact hg
      | int bits => exact hg
      | uint bits => exact hg
      | float bits => exact hg
      | str => exact hg
      | slice t0 => exact hg
      | unmarshaler n => exact hg
      | unsupported n => exact hg

/-- One binding step preserves the value readable at any path not
prefix-related to the entry's path (whether or not it errors). -/
theorem parseParam_pres (p : Parser) (r : Request) (d : TaggedFieldIndexPath)
    (t : Ty) (v : Value) (q' : List Nat) (x : Value)
    (hpr : prefixRelated d.indexPath q' = false)
    (hg : getAtPath t v q' = some x) :
    getAtPath t (p.parseParam r d t v).2 q' = some x := by
  rcases d with ⟨pt, nm, ip⟩
  have hpr' : prefixRelated ip q' = false := hpr
  cases pt with
  | path =>
    show getAtPath t (p.parsePathParam r nm ip t v).2 q' = some x
    rw [Parser.parsePathParam]
    repeat' first
      | exact hg
      | exact writeAtPath_pres _ t v ip q' x hpr' hg
      | dsimp only
      | split
  | form =>
    show getAtPath t (p.parseFormParam r nm ip t v).2 q' = some x
    rw [Parser.parseFormParam]
    repeat' first
      | exact hg
      | exact writeAtPath_pres _ t v ip q' x hpr' hg
      | dsimp only
      | split
  | query =>
    show getAtPath t (p.parseQueryParam r nm ip t v).2 q' = some x
    rw [Parser.parseQueryParam]
    repeat' first
      | exact hg
      | exact writeAtPath_pres _ t v ip q' x hpr' hg
      | dsimp only
      | split

/-- A binding step whose source supplies no value leaves the destination
untouched (whether or not it errors). -/
theorem parseParam_noValue (p : Parser) (r : Request) (d : TaggedFieldIndexPath)
    (t : Ty) (v : Value) (h : suppliesNoValue p r d) :
    (p.parseParam r d t v).2 = v := by
  rcases d with ⟨pt, nm, ip⟩
  cases pt with
  | path =>
    show (p.parsePathParam r nm ip t v).2 = v
    rw [Parser.parsePathParam]
    rcases hpf : p.PathParamFunc with _ | f
    · rfl
    · have h2 : (match p.PathParamFunc with
          | none => True
          | some f => f r nm = "") := h
      rw [hpf] at h2
      dsimp only
      rw [show f r nm = "" from h2]
      simp
  | form =>
    show (p.parseFormParam r nm ip t v).2 = v
    have h2 : p.FormParamFunc r nm = "" := h
    rw [Parser.parseFormParam]
    split
    · rfl
    · dsimp only
      split
      · rfl
      · rw [h2]
        simp
  | query =>
    show (p.parseQueryParam r nm ip t v).2 = v
    have h2 : queryGet r.query nm = [] := h
    rw [Parser.parseQueryParam, h2]

/-- The zeroing loop keeps an already-zeroed leaf zeroed, as long as every
listed path is either the same path (re-zeroed to the same value) or
prefix-unrelated (preserved). -/
theorem zeroAll_keepZero (t : Ty) (ip : List Nat) (dt : Ty) :
    ∀ (l : List TaggedFieldIndexPath) (v v2 : Value),
      typeAtPath t ip = some dt →
      getAtPath t v ip = some (zeroValue dt) →
      (∀ q ∈ l, q.indexPath = ip ∨ prefixRelated q.indexPath ip = false) →
      zeroAll t v l = (none, v2) →
      getAtPath t v2 ip = some (zeroValue dt) := by
  intro l
  induction l with
  | nil =>
    intro v v2 ht hg hq hz
    have h2 : v = v2 := congrArg Prod.snd hz
    subst h2
    exact hg
  | cons hd tl ih =>
    intro v v2 ht hg hq hz
    rw [zeroAll] at hz
    rcases hzp : zeroPath t v hd.indexPath with ⟨e, v1⟩
    rw [hzp] at hz
    cases e with
    | some err => exact Option.noConfusion (congrArg Prod.fst hz)
    | none =>
      have htl : ∀ q ∈ tl, q.indexPath = ip ∨ prefixRelated q.indexPath ip = false :=
        fun q hq2 => hq q (List.mem_cons_of_mem hd hq2)
      rcases hq hd (List.mem_cons_self hd tl) with heq | hunrel
      · rw [heq] at hzp
        by_cases hie : ip = []
        · subst hie
          have hv1 : v = v1 := congrArg Prod.snd hzp
          subst hv1
          exact ih v v2 ht hg htl hz
        · obtain ⟨dt2, ht2, hg2⟩ := zeroPath_at t v ip v1 hie hzp
          rw [ht] at ht2
          injection ht2 with hdt
          subst hdt
          exact ih v1 v2 ht hg2 htl hz
      · have hg1 := zeroPath_pres t v hd.indexPath ip (zeroValue dt) hunrel hg
        rw [hzp] at hg1
        exact ih v1 v2 ht hg1 htl hz

/-- After a successful zeroing loop, every listed path (under the
no-strict-nesting condition) holds the zero value of its leaf type. -/
theorem zeroAll_zeroed (t : Ty) (d : TaggedFieldIndexPath)
    (hne : d.indexPath ≠ []) :
    ∀ (l : List TaggedFieldIndexPath) (v v2 : Value),
      d ∈ l →
      (∀ q ∈ l, q.indexPath = d.indexPath ∨
        prefixRelated q.indexPath d.indexPath = false) →
      zeroAll t v l = (none, v2) →
      ∃ dt, typeAtPath t d.indexPath = some dt ∧
        getAtPath t v2 d.indexPath = some (zeroValue dt) := by
  intro l
  induction l with
  | nil =>
    intro v v2 hmem
    exact absurd hmem (List.not_mem_nil d)
  | cons hd tl ih =>
    intro v v2 hmem hq hz
    rw [zeroAll] at hz
    rcases hzp : zeroPath t v hd.indexPath with ⟨e, v1⟩
    rw [hzp] at hz
    cases e with
    | some err => exact Option.noConfusion (congrArg Prod.fst hz)
    | none =>
      have htl : ∀ q ∈ tl, q.indexPath = d.indexPath ∨
          prefixRelated q.indexPath d.indexPath = false :=
        fun q hq2 => hq q (List.mem_cons_of_mem hd hq2)
      rcases hq hd (List.mem_cons_self hd tl) with heq | hunrel
      · rw [heq] at hzp
        obtain ⟨dt, ht, hg⟩ := zeroPath_at t v d.indexPath v1 hne hzp
        exact ⟨dt, ht, zeroAll_keepZero t d.indexPath dt tl v1 v2 ht hg htl hz⟩
      · have hdne : d ≠ hd := by
          intro e2
          subst e2
          rw [prefixRelated, listIsPrefix_refl] at hunrel
          simp at hunrel
        have hmem2 : d ∈ tl := by
          rcases List.mem_cons.mp hmem with h2 | h2
          · exact absurd h2 hdne
          · exact h2
        exact ih v1 v2 hmem2 htl hz

/-- The binding loop preserves a readable value at a path as long as every
listed entry either addresses exactly that path but is supplied no value,
or addresses a prefix-unrelated path. -/
theorem bindAll_keep (p : Parser) (r : Request) (t : Ty) (ip : List Nat)
    (x : Value) :
    ∀ (l : List TaggedFieldIndexPath) (v : Value),
      getAtPath t v ip = some x →
      (∀ q ∈ l, (q.indexPath = ip ∧ suppliesNoValue p r q) ∨
        prefixRelated q.indexPath ip = false) →
      getAtPath t (p.bindAll r t v l).2 ip = some x := by
  intro l
  induction l with
  | nil =>
    intro v hg _
    exact hg
  | cons hd tl ih =>
    intro v hg hq
    rw [Parser.bindAll]
    rcases hp : p.parseParam r hd t v with ⟨e, v1⟩
    have hg1 : getAtPath t v1 ip = some x := by
      rcases hq hd (List.mem_cons_self hd tl) with ⟨heq, hnv⟩ | hunrel
      · have hkeep := parseParam_noValue p r hd t v hnv
        rw [hp] at hkeep
        have hv : v1 = v := hkeep
        rw [hv]
        exact hg
      · have hkeep := parseParam_pres p r hd t v ip x hunrel hg
        rw [hp] at hkeep
        exact hkeep
    cases e with
    | some err => exact hg1
    | none => exact ih v1 hg1 (fun q hq2 => hq q (List.mem_cons_of_mem hd hq2))

/-- **C1 amended**: on a Parse that returns no error, every discovered
tagged field whose parameter names are supplied no value by the request
ends at the zero value of its type — the pre-populated sentinel is reset.
(The no-strict-nesting condition makes the index-path re-walk a faithful
rendering of the captured `destValue` aliases.) -/
theorem parse_zeroes_unsupplied_fields (p : Parser) (r : Request)
    (sn : String) (flds : Fields) (v v2 : Value) (d : TaggedFieldIndexPath)
    (hnn : NonNested (p.findTaggedIndexPaths (.strct sn flds) [] []))
    (hmem : d ∈ p.findTaggedIndexPaths (.strct sn flds) [] [])
    (hne : d.indexPath ≠ [])
    (hnv : ∀ q ∈ p.findTaggedIndexPaths (.strct sn flds) [] [],
      q.indexPath = d.indexPath → suppliesNoValue p r q)
    (hp : p.Parse r (.strct sn flds) v = (none, v2)) :
    ∃ dt, typeAtPath (.strct sn flds) d.indexPath = some dt ∧
      getAtPath (.strct sn flds) v2 d.indexPath = some (zeroValue dt) := by
  rw [Parser.Parse] at hp
  dsimp only at hp
  rcases hz : zeroAll (.strct sn flds) v
      (p.findTaggedIndexPaths (.strct sn flds) [] []) with ⟨e, v1⟩
  rw [hz] at hp
  cases e with
  | some err => exact Option.noConfusion (congrArg Prod.fst hp)
  | none =>
    have hbind : p.bindAll r (.strct sn flds) v1
        (p.findTaggedIndexPaths (.strct sn flds) [] []) = (none, v2) := hp
    have hcond : ∀ q ∈ p.findTaggedIndexPaths (.strct sn flds) [] [],
        q.indexPath = d.indexPath ∨
        prefixRelated q.indexPath d.indexPath = false := by
      intro q hq
      cases hpr : prefixRelated q.indexPath d.indexPath with
      | false => exact Or.inr rfl
      | true =>
        refine Or.inl ?_
        simp only [prefixRelated, Bool.or_eq_true] at hpr
        rcases hpr with h1 | h1
        · exact hnn q hq d hmem h1
        · exact (hnn d hmem q hq h1).symm
    obtain ⟨dt, ht, hg⟩ := zeroAll_zeroed (.strct sn flds) d hne
      (p.findTaggedIndexPaths (.strct sn flds) [] []) v v1 hmem hcond hz
    refine ⟨dt, ht, ?_⟩
    have hfin := bindAll_keep p r (.strct sn flds) d.indexPath (zeroValue dt)
      (p.findTaggedIndexPaths (.strct sn flds) [] []) v1 hg
      (fun q hq => (hcond q hq).elim
        (fun he => Or.inl ⟨he, hnv q hq he⟩) Or.inr)
    rw [hbind] at hfin
    exact hfin

/-- Witness for `parse_zeroes_unsupplied_fields`: `otherFieldsStruct` with
`Q` pre-populated to `"sentinel"`, parsed against a request without `q`,
ends with `Q` reset to `""`. -/
theorem parse_zeroes_unsupplied_fields_witness :
    ∃ dt, typeAtPath otherFieldsStructTy [0] = some dt ∧
      getAtPath otherFieldsStructTy
        (DefaultParser.Parse (getReq []) otherFieldsStructTy
          (.vstrct (.cons (.vstr "sentinel") (.cons (.vstr "other") .nil)))).2
        [0] = some (zeroValue dt) :=
  parse_zeroes_unsupplied_fields DefaultParser (getReq []) "otherFieldsStruct"
    (.cons "Q" false [("param", "query=q")] .str
      (.cons "Other" false [("json", "other")] .str .nil))
    (.vstrct (.cons (.vstr "sentinel") (.cons (.vstr "other") .nil))) _
    (⟨.query, "q", [0]⟩ : TaggedFieldIndexPath)
    (by decide) (by decide) (by decide)
    (fun q hq _ => by
      have hq2 : q ∈ [(⟨.query, "q", [0]⟩ : TaggedFieldIndexPath)] := hq
      rw [List.mem_singleton.mp hq2]
      rfl)
    rfl

/-- **C1 counterexample**: the zeroing phase aborts on the unexported
anonymous pointer field of `sentinelStruct` before reaching the
query-tagged field `S`, so the pre-populated sentinel in `S` survives the
Parse call unchanged (the request supplies no value for `s`). -/
theorem sentinel_survives_zero_abort :
    DefaultParser.Parse (getReq []) sentinelStructTy sentinelInit =
      (some (.msg "cannot set embedded pointer to unexported struct: embeddedStruct"),
        sentinelInit) ∧
    getAtPath sentinelStructTy sentinelInit [1] = some (.vstr "sentinel") :=
  ⟨by decide, rfl⟩

end Param
